import Mathlib

/-!
# spp-lobby: the server registry of `controllers/serverController.go`

A shallow embedding of the registry kept by `ServerController`: the endpoint
index (`types.SafeMap[string, Server]`), the timeline index
(`types.SafeTreeMap[int64, []Server]`), and the functions `RegisterServer`,
`findServer`, `treeToList`, `appendToServersTree`, `updateInServersTree` and
`removeExpiredServers`.

Conventions of the embedding.

* Every function takes the state it works on and returns the new state; the
  mutexes of `SafeMap` and `SafeTreeMap` guard single operations and play no
  part in a sequential run, so they are not represented.
* `time.Now().Unix()` is an input: `removeExpiredServers` takes `timeNow`, and
  `RegisterServer` takes the incoming server with `IP`, `Port` and `UpdatedAt`
  already filled in (lines 63-68 of the source).
* `int64` values are integers; the one arithmetic operation of the source,
  `timeNow - it.Key()`, is the wrapping 64-bit subtraction `sub64`.
* A Go map is an association list (`SafeMap`), read by first match.  The
  ordered map of `github.com/igrmk/treemap` is an association list whose
  iteration order is the list order (`SafeTreeMap`); `Set` puts a key at its
  place in ascending order.
* `RegisterServerChecked` is the upsert with the index and slice checks that Go
  makes at run time, `none` standing for a failed check.
* `removeExpiredServersEarlyStop` is the shortened sweep that section 4.6 of the
  spec allows; the source has no such function.
* `GetSpecificServer` returns the status code and body it passes to `c.JSON`;
  `strconv.ParseUint` is a parameter.
-/

namespace SppLobby

/-- Modelled from the spec: the struct `types.Server` is declared in a file that
is not among the sources. The functions embedded here read and write its
fields `IP`, `Port` and `UpdatedAt`, and `Players` is the player list that the
registry stores and returns; `Port` is a `uint16` (used only as a value to
print and compare) and `UpdatedAt` an `int64`. -/
structure Server where
  IP : String
  Port : Nat
  Players : List String
  UpdatedAt : Int
  deriving DecidableEq, Repr

/-- The Go type `SafeMap[string, Value]`: the entries of the underlying map. -/
abbrev SafeMap (Value : Type) := List (String × Value)

/-- The Go type `SafeTreeMap[int64, Value]`: the entries of the underlying tree
map in iteration order. -/
abbrev SafeTreeMap (Value : Type) := List (Int × Value)

/-- `NewSafeMap`: the empty map. -/
def NewSafeMap {Value : Type} : SafeMap Value := []

/-- `SafeMap.Get`: the value stored under `key`, if any. -/
def SafeMap.Get {Value : Type} : SafeMap Value → String → Option Value
  | [], _ => none
  | (k, v) :: rest, key => if k = key then some v else SafeMap.Get rest key

/-- `SafeMap.Set`: `unsafeMap[key] = val`, overwriting or adding. -/
def SafeMap.Set {Value : Type} : SafeMap Value → String → Value → SafeMap Value
  | [], key, val => [(key, val)]
  | (k, v) :: rest, key, val =>
    if k = key then (key, val) :: rest else (k, v) :: SafeMap.Set rest key val

/-- `SafeMap.Delete`: `delete(unsafeMap, key)`. -/
def SafeMap.Delete {Value : Type} (self : SafeMap Value) (key : String) : SafeMap Value :=
  self.filter (fun kv => decide (kv.1 ≠ key))

/-- `NewSafeTreeMap`: the empty tree map. -/
def NewSafeTreeMap {Value : Type} : SafeTreeMap Value := []

/-- `SafeTreeMap.Get`: the value stored under `key`, if any. -/
def SafeTreeMap.Get {Value : Type} : SafeTreeMap Value → Int → Option Value
  | [], _ => none
  | (k, v) :: rest, key => if k = key then some v else SafeTreeMap.Get rest key

/-- `SafeTreeMap.Set`: stores `val` under `key`, replacing the value of an
existing key and otherwise inserting the key at its place in ascending order. -/
def SafeTreeMap.Set {Value : Type} : SafeTreeMap Value → Int → Value → SafeTreeMap Value
  | [], key, val => [(key, val)]
  | (k, v) :: rest, key, val =>
    if key < k then (key, val) :: (k, v) :: rest
    else if key = k then (key, val) :: rest
    else (k, v) :: SafeTreeMap.Set rest key val

/-- `SafeTreeMap.Del`: removes `key`. -/
def SafeTreeMap.Del {Value : Type} (self : SafeTreeMap Value) (key : Int) : SafeTreeMap Value :=
  self.filter (fun kv => decide (kv.1 ≠ key))

/-- `TServersByUpdatedTime`. -/
abbrev TServersByUpdatedTime := SafeTreeMap (List Server)

/-- `TServersByIPPort`. -/
abbrev TServersByIPPort := SafeMap Server

/-- `SERVER_EXPIRY_TIME_IN_SECONDS = 5 * 60`. -/
def SERVER_EXPIRY_TIME_IN_SECONDS : Int := 5 * 60

/-- The struct `ServerController`. -/
structure ServerController where
  serversByUpdatedTime : TServersByUpdatedTime
  serversByIPPort : TServersByIPPort
  deriving DecidableEq, Repr

/-- `NewServerController`: both indexes empty. -/
def NewServerController : ServerController :=
  { serversByUpdatedTime := NewSafeTreeMap, serversByIPPort := NewSafeMap }

/-- `treeToList`: the buckets of the tree in iteration order, each bucket in its
own order. -/
def treeToList : TServersByUpdatedTime → List Server
  | [] => []
  | (_, bucket) :: rest => bucket ++ treeToList rest

/-- `convertToIPPort`: `ip + ":" + strconv.FormatUint(uint64(port), 10)`. -/
def convertToIPPort (ip : String) (port : Nat) : String :=
  ip ++ ":" ++ Nat.repr port

/-- The key of the endpoint index under which a server is filed. -/
def Server.ipPort (s : Server) : String := convertToIPPort s.IP s.Port

/-- `findServer`: the lookup result (the found server, or the error message)
together with the controller as the call leaves it. -/
def findServer (self : ServerController) (ip : String) (port : Nat) :
    Except String Server × ServerController :=
  let serverIPPort := convertToIPPort ip port
  match SafeMap.Get self.serversByIPPort serverIPPort with
  | some candidateServer => (Except.ok candidateServer, self)
  | none => (Except.error "server not found", self)

/-- `appendToServersTree`: adds `newServer` at the end of the bucket of its
`UpdatedAt`, creating the bucket when the key is absent. -/
def appendToServersTree (serversTree : TServersByUpdatedTime) (newServer : Server) :
    TServersByUpdatedTime :=
  match SafeTreeMap.Get serversTree newServer.UpdatedAt with
  | some serverListNow =>
    SafeTreeMap.Set (SafeTreeMap.Del serversTree newServer.UpdatedAt) newServer.UpdatedAt
      (serverListNow ++ [newServer])
  | none => SafeTreeMap.Set serversTree newServer.UpdatedAt [newServer]

/-- The search loop of `updateInServersTree` (lines 164-171): the index of the
first server of the list with the given IP and port, `none` for the nil
pointer. The index is a position of the list. -/
def findServerIndex (ip : String) (port : Nat) :
    (serversListAtTime : List Server) → Option (Fin serversListAtTime.length)
  | [] => none
  | currentServer :: rest =>
    if currentServer.IP = ip ∧ currentServer.Port = port then some ⟨0, Nat.succ_pos _⟩
    else (findServerIndex ip port rest).map Fin.succ

/-- Lines 175-177 of `updateInServersTree`: the element at `serverIndex` is
overwritten with the last one and the list is cut to `lastIndex` elements.
Both positions read and written exist because `serverIndex` is a position. -/
def swapRemove (serversListAtTime : List Server) (serverIndex : Fin serversListAtTime.length) :
    List Server :=
  let lastIndex : Fin serversListAtTime.length :=
    ⟨serversListAtTime.length - 1, Nat.sub_lt (Nat.lt_of_le_of_lt (Nat.zero_le _) serverIndex.isLt) Nat.one_pos⟩
  (serversListAtTime.set serverIndex.val (serversListAtTime.get lastIndex)).take lastIndex.val

/-- The first half of `updateInServersTree` (lines 158-183): the tree after the
existing server has been taken out of the bucket of its `UpdatedAt`. -/
def removeFromServersTree (serversTree : TServersByUpdatedTime) (existingServer : Server) :
    TServersByUpdatedTime :=
  let lastUpdatedAt := existingServer.UpdatedAt
  match SafeTreeMap.Get serversTree lastUpdatedAt with
  | some serversListAtTime =>
    match findServerIndex existingServer.IP existingServer.Port serversListAtTime with
    | some serverIndex =>
      SafeTreeMap.Set (SafeTreeMap.Del serversTree lastUpdatedAt) lastUpdatedAt
        (swapRemove serversListAtTime serverIndex)
    | none => serversTree
  | none => serversTree

/-- `updateInServersTree`: takes the existing server out of its bucket, then
appends the updated server to the tree. -/
def updateInServersTree (self : ServerController) (existingServer updatedServer : Server) :
    ServerController :=
  { self with
    serversByUpdatedTime :=
      appendToServersTree (removeFromServersTree self.serversByUpdatedTime existingServer)
        updatedServer }

/-- `RegisterServer` from line 67 on (the upsert), for an incoming server whose
`IP`, `Port` and `UpdatedAt` are set. The source builds the key from the
client IP and the port of the request, and the server from the same request
(`ConvertRegisterServerInputToServer`, outside the sources, then `IP` and
`UpdatedAt` are assigned), so the key is the one of the server's own `IP` and
`Port`. -/
def RegisterServer (self : ServerController) (incomingServer : Server) : ServerController :=
  let incomingServerIPPort := convertToIPPort incomingServer.IP incomingServer.Port
  match SafeMap.Get self.serversByIPPort incomingServerIPPort with
  | some foundServer =>
    let self1 := updateInServersTree self foundServer incomingServer
    { self1 with
      serversByIPPort := SafeMap.Set self1.serversByIPPort incomingServerIPPort incomingServer }
  | none =>
    { serversByUpdatedTime := appendToServersTree self.serversByUpdatedTime incomingServer
      serversByIPPort := SafeMap.Set self.serversByIPPort incomingServerIPPort incomingServer }

/-- The value of an `int64` computation: the integer brought back into the
range from `-2^63` to `2^63 - 1`. -/
def wrapInt64 (x : Int) : Int := (x + 2 ^ 63) % 2 ^ 64 - 2 ^ 63

/-- The `int64` subtraction `a - b` of Go. -/
def sub64 (a b : Int) : Int := wrapInt64 (a - b)

/-- The test of line 197: `timeNow - it.Key() > SERVER_EXPIRY_TIME_IN_SECONDS`. -/
def isExpired (timeNow key : Int) : Bool :=
  decide (sub64 timeNow key > SERVER_EXPIRY_TIME_IN_SECONDS)

/-- The inner loop of `removeExpiredServers` (lines 198-201): every server of
the bucket is deleted from the map by its IP and port. -/
def deleteServersFromMap (serversMap : TServersByIPPort) : List Server → TServersByIPPort
  | [] => serversMap
  | currentServer :: rest =>
    deleteServersFromMap
      (SafeMap.Delete serversMap (convertToIPPort currentServer.IP currentServer.Port)) rest

/-- The first loop of `removeExpiredServers` (lines 196-204) over the entries
still to visit: the map after the deletions and the keys to delete. -/
def scanExpired (timeNow : Int) :
    List (Int × List Server) → TServersByIPPort → List Int → TServersByIPPort × List Int
  | [], serversMap, serversTreeKeysToDelete => (serversMap, serversTreeKeysToDelete)
  | (key, bucket) :: rest, serversMap, serversTreeKeysToDelete =>
    if isExpired timeNow key then
      scanExpired timeNow rest (deleteServersFromMap serversMap bucket)
        (serversTreeKeysToDelete ++ [key])
    else scanExpired timeNow rest serversMap serversTreeKeysToDelete

/-- The second loop of `removeExpiredServers` (lines 206-208). -/
def deleteKeys (serversTree : TServersByUpdatedTime) : List Int → TServersByUpdatedTime
  | [] => serversTree
  | serversTreeKeyToDelete :: rest =>
    deleteKeys (SafeTreeMap.Del serversTree serversTreeKeyToDelete) rest

/-- `removeExpiredServers` at the time `timeNow`. -/
def removeExpiredServers (timeNow : Int) (self : ServerController) : ServerController :=
  let scanned := scanExpired timeNow self.serversByUpdatedTime self.serversByIPPort []
  { serversByUpdatedTime := deleteKeys self.serversByUpdatedTime scanned.2
    serversByIPPort := scanned.1 }

/-- The states the registry reaches from the empty one by upserts and sweeps. -/
inductive Reachable : ServerController → Prop
  | init : Reachable NewServerController
  | register (s : ServerController) (e : Server) :
      Reachable s → Reachable (RegisterServer s e)
  | sweep (s : ServerController) (timeNow : Int) :
      Reachable s → Reachable (removeExpiredServers timeNow s)

/-- The bucket stored under a key of the timeline index, empty when the key is
absent. -/
def bucketAt (serversTree : TServersByUpdatedTime) (key : Int) : List Server :=
  (SafeTreeMap.Get serversTree key).getD []

/-- Two servers have the same endpoint. -/
def sameEndpoint (a b : Server) : Prop := a.IP = b.IP ∧ a.Port = b.Port

instance (a b : Server) : Decidable (sameEndpoint a b) := by
  unfold sameEndpoint; infer_instance

/-- The decimal digit a character stands for. -/
def digitValue (c : Char) : Nat := c.toNat - 48

/-- The keys of a tree map are strictly ascending in iteration order. -/
def SortedKeys {Value : Type} (t : SafeTreeMap Value) : Prop :=
  t.Pairwise (fun a b => a.1 < b.1)

/-- Every server of every bucket carries the key of its bucket as `UpdatedAt`. -/
def BucketsKeyed (t : TServersByUpdatedTime) : Prop :=
  ∀ k b, (k, b) ∈ t → ∀ e ∈ b, e.UpdatedAt = k

/-- The consistency of the two indexes of a controller. -/
structure Inv (s : ServerController) : Prop where
  sorted : SortedKeys s.serversByUpdatedTime
  bucketsKeyed : BucketsKeyed s.serversByUpdatedTime
  treeInMap : ∀ e ∈ treeToList s.serversByUpdatedTime,
    SafeMap.Get s.serversByIPPort e.ipPort = some e
  mapInTree : ∀ key e, SafeMap.Get s.serversByIPPort key = some e →
    key = e.ipPort ∧ e ∈ treeToList s.serversByUpdatedTime
  nodupTree : ((treeToList s.serversByUpdatedTime).map Server.ipPort).Nodup
  nodupMap : (s.serversByIPPort.map Prod.fst).Nodup

/-! ### The run-time checks of `updateInServersTree` -/

/-- The search loop of `updateInServersTree` (lines 164-171) with the index as
the Go `int` it is: the index of the first server of the list with the given
IP and port, `none` for the nil pointer. -/
def searchServerIndex (ip : String) (port : Nat) : List Server → Option Int
  | [] => none
  | currentServer :: rest =>
    if currentServer.IP = ip ∧ currentServer.Port = port then some 0
    else (searchServerIndex ip port rest).map (fun index => index + 1)

/-- A Go index expression `list[index]`; `none` is the run-time failure "index
out of range". -/
def indexServers (list : List Server) (index : Int) : Option Server :=
  if 0 ≤ index ∧ index < list.length then list[index.toNat]? else none

/-- Lines 175-177 of `updateInServersTree` with the checks Go makes at run
time: the read of `serversListAtTime[lastIndex]`, the write of
`serversListAtTime[*serverIndex]` and the slice `serversListAtTime[:lastIndex]`.
`none` is a failure of one of them. -/
def swapRemoveChecked (serversListAtTime : List Server) (serverIndex : Int) :
    Option (List Server) :=
  let lastIndex : Int := (serversListAtTime.length : Int) - 1
  match indexServers serversListAtTime lastIndex with
  | none => none
  | some lastServer =>
    if 0 ≤ serverIndex ∧ serverIndex < serversListAtTime.length then
      let assigned := serversListAtTime.set serverIndex.toNat lastServer
      if 0 ≤ lastIndex ∧ lastIndex ≤ assigned.length then some (assigned.take lastIndex.toNat)
      else none
    else none

/-- Lines 158-183 of `updateInServersTree` with the run-time checks. -/
def removeFromServersTreeChecked (serversTree : TServersByUpdatedTime)
    (existingServer : Server) : Option TServersByUpdatedTime :=
  let lastUpdatedAt := existingServer.UpdatedAt
  match SafeTreeMap.Get serversTree lastUpdatedAt with
  | some serversListAtTime =>
    match searchServerIndex existingServer.IP existingServer.Port serversListAtTime with
    | some serverIndex =>
      match swapRemoveChecked serversListAtTime serverIndex with
      | some shortened =>
        some (SafeTreeMap.Set (SafeTreeMap.Del serversTree lastUpdatedAt) lastUpdatedAt
          shortened)
      | none => none
    | none => some serversTree
  | none => some serversTree

/-- `updateInServersTree` with the run-time checks. -/
def updateInServersTreeChecked (self : ServerController)
    (existingServer updatedServer : Server) : Option ServerController :=
  match removeFromServersTreeChecked self.serversByUpdatedTime existingServer with
  | some serversTree =>
    some { self with serversByUpdatedTime := appendToServersTree serversTree updatedServer }
  | none => none

/-- `RegisterServer` from line 67 on with the run-time checks: `none` when the
upsert fails. -/
def RegisterServerChecked (self : ServerController) (incomingServer : Server) :
    Option ServerController :=
  let incomingServerIPPort := convertToIPPort incomingServer.IP incomingServer.Port
  match SafeMap.Get self.serversByIPPort incomingServerIPPort with
  | some foundServer =>
    match updateInServersTreeChecked self foundServer incomingServer with
    | some self1 =>
      some { self1 with
        serversByIPPort :=
          SafeMap.Set self1.serversByIPPort incomingServerIPPort incomingServer }
    | none => none
  | none =>
    some
      { serversByUpdatedTime := appendToServersTree self.serversByUpdatedTime incomingServer
        serversByIPPort := SafeMap.Set self.serversByIPPort incomingServerIPPort incomingServer }

/-! ### The sweep that stops early (spec, section 4.6) -/

/-- The scan of the sweep as the spec allows it to be shortened: it stops at
the first bucket that is not expired. The source has no such variant; this
definition follows the words of the spec and is compared with `scanExpired`. -/
def scanExpiredEarlyStop (timeNow : Int) :
    List (Int × List Server) → TServersByIPPort → List Int → TServersByIPPort × List Int
  | [], serversMap, serversTreeKeysToDelete => (serversMap, serversTreeKeysToDelete)
  | (key, bucket) :: rest, serversMap, serversTreeKeysToDelete =>
    if isExpired timeNow key then
      scanExpiredEarlyStop timeNow rest (deleteServersFromMap serversMap bucket)
        (serversTreeKeysToDelete ++ [key])
    else (serversMap, serversTreeKeysToDelete)

/-- The sweep with the early stop of the spec. -/
def removeExpiredServersEarlyStop (timeNow : Int) (self : ServerController) :
    ServerController :=
  let scanned := scanExpiredEarlyStop timeNow self.serversByUpdatedTime self.serversByIPPort []
  { serversByUpdatedTime := deleteKeys self.serversByUpdatedTime scanned.2
    serversByIPPort := scanned.1 }

/-! ### The handler `GetSpecificServer` -/

/-- `http.StatusBadRequest`. -/
def StatusBadRequest : Nat := 400

/-- `http.StatusNotFound`. -/
def StatusNotFound : Nat := 404

/-- What the handler reads of the `gin.Context`: the route parameters `ip` and
`port`. -/
structure Context where
  ip : String
  port : String
  deriving DecidableEq, Repr

/-- The value a handler passes to `c.JSON`: `gin.H` with a message, or a
server. -/
inductive ResponseBody where
  | message (text : String)
  | server (found : Server)
  deriving DecidableEq, Repr

/-- A call of `c.JSON`: the status code and the body. -/
structure Response where
  status : Nat
  body : ResponseBody
  deriving DecidableEq, Repr

/-- `getPortFromParams`. The library function `strconv.ParseUint(_, 10, 16)` is
the parameter `ParseUint` (`none` for its error); `uint16(port64)` keeps the
low 16 bits. -/
def getPortFromParams (ParseUint : String → Option Nat) (c : Context) : Except String Nat :=
  match ParseUint c.port with
  | none => Except.error "Invalid port"
  | some port64 => Except.ok (port64 % 2 ^ 16)

/-- `GetSpecificServer` at the time `timeNow`: the response and the controller
after the call. -/
def GetSpecificServer (ParseUint : String → Option Nat) (timeNow : Int)
    (self : ServerController) (c : Context) : Response × ServerController :=
  let swept := removeExpiredServers timeNow self
  match getPortFromParams ParseUint c with
  | Except.error err => ({ status := StatusBadRequest, body := ResponseBody.message err }, swept)
  | Except.ok port =>
    match findServer swept c.ip port with
    | (Except.error err, self1) =>
      ({ status := StatusNotFound, body := ResponseBody.message err }, self1)
    | (Except.ok foundServer, self1) =>
      ({ status := StatusNotFound, body := ResponseBody.server foundServer }, self1)

/-! ### Concrete servers and states for the instances -/

/-- The server `10.0.0.1:7777` registered at time 10. -/
def serverA10 : Server := { IP := "10.0.0.1", Port := 7777, Players := [], UpdatedAt := 10 }

/-- The server `10.0.0.1:7777` registered again at time 20. -/
def serverA20 : Server :=
  { IP := "10.0.0.1", Port := 7777, Players := ["alice"], UpdatedAt := 20 }

/-- The server `10.0.0.2:7777` registered at time 10. -/
def serverB10 : Server := { IP := "10.0.0.2", Port := 7777, Players := ["bob"], UpdatedAt := 10 }

/-- The server `10.0.0.2:7777` registered at time 5. -/
def serverB5 : Server := { IP := "10.0.0.2", Port := 7777, Players := [], UpdatedAt := 5 }

/-- The server `10.0.0.3:7777` registered at time 20. -/
def serverC20 : Server := { IP := "10.0.0.3", Port := 7777, Players := [], UpdatedAt := 20 }

/-- The registry after `serverA10` has registered. -/
def stateA : ServerController := RegisterServer NewServerController serverA10

/-- The registry after `serverA10` and `serverB10` have registered. -/
def stateAB : ServerController := RegisterServer stateA serverB10

/-- The registry after `serverA10`, `serverB5` and `serverC20` have registered. -/
def stateABC : ServerController :=
  RegisterServer (RegisterServer stateA serverB5) serverC20

/-- The server `10.0.0.1:7777` registered at time 1000 with no players. -/
def server1000 : Server :=
  { IP := "10.0.0.1", Port := 7777, Players := [], UpdatedAt := 1000 }

/-- The server `10.0.0.1:7777` registered at time 1010 with the player alice. -/
def server1010 : Server :=
  { IP := "10.0.0.1", Port := 7777, Players := ["alice"], UpdatedAt := 1010 }

/-- A server whose `UpdatedAt` is the least `int64`. -/
def serverMin : Server :=
  { IP := "10.0.0.4", Port := 7777, Players := [], UpdatedAt := -9223372036854775808 }

/-- The registry after `serverA10` and `serverMin` have registered. -/
def stateMin : ServerController := RegisterServer stateA serverMin

/-- A stand-in for `strconv.ParseUint` that reads the one string "7777". -/
def parse7777 (text : String) : Option Nat := if text = "7777" then some 7777 else none

/-! ## The key of the endpoint index -/

theorem digitValue_digitChar (d : Nat) (h : d < 10) : digitValue (Nat.digitChar d) = d := by
  interval_cases d <;> rfl

theorem digitChar_ne_colon (d : Nat) (h : d < 10) : Nat.digitChar d ≠ ':' := by
  interval_cases d <;> decide

theorem toDigitsCore_eq (f : Nat) : ∀ (n : Nat) (acc : List Char), n < f →
    Nat.toDigitsCore 10 f n acc =
      (if n = 0 then ['0'] else ((Nat.digits 10 n).reverse.map Nat.digitChar)) ++ acc := by
  induction f with
  | zero => intro n acc h; omega
  | succ f ih =>
    intro n acc h
    rw [Nat.toDigitsCore]
    by_cases hn : n = 0
    · subst hn; simp; rfl
    · have hd : Nat.digits 10 n = (n % 10) :: Nat.digits 10 (n / 10) :=
        Nat.digits_def' (by norm_num) (Nat.pos_of_ne_zero hn)
      by_cases hq : n / 10 = 0
      · simp [hn, hq, hd]
      · have hlt : n / 10 < f := by omega
        simp only [hq, if_false, hn]
        rw [ih (n / 10) _ hlt, hd]
        simp [hq]

theorem toDigits_eq (n : Nat) :
    Nat.toDigits 10 n =
      if n = 0 then ['0'] else ((Nat.digits 10 n).reverse.map Nat.digitChar) := by
  rw [Nat.toDigits, toDigitsCore_eq (n + 1) n [] (Nat.lt_succ_self n)]
  simp

theorem colon_not_mem_toDigits (n : Nat) : ':' ∉ Nat.toDigits 10 n := by
  rw [toDigits_eq]
  split
  · decide
  · intro h
    rcases List.mem_map.1 h with ⟨d, hd, hc⟩
    have hd' : d ∈ Nat.digits 10 n := List.mem_reverse.1 hd
    exact digitChar_ne_colon d (Nat.digits_lt_base (by norm_num) hd') hc

theorem map_digitValue_digitChar (l : List Nat) (h : ∀ d ∈ l, d < 10) :
    (l.map Nat.digitChar).map digitValue = l := by
  induction l with
  | nil => rfl
  | cons a l ih =>
    simp only [List.map_cons]
    rw [digitValue_digitChar a (h a (List.mem_cons_self a l)),
      ih (fun d hd => h d (List.mem_cons_of_mem a hd))]

theorem digits_of_toDigits (n : Nat) (hn : n ≠ 0) :
    ((Nat.toDigits 10 n).map digitValue).reverse = Nat.digits 10 n := by
  rw [toDigits_eq, if_neg hn, map_digitValue_digitChar]
  · simp
  · intro d hd
    exact Nat.digits_lt_base (by norm_num) (List.mem_reverse.1 hd)

theorem toDigits_zero_iff (n : Nat) : Nat.toDigits 10 n = ['0'] ↔ n = 0 := by
  constructor
  · intro h
    by_contra hn
    have h2 := digits_of_toDigits n hn
    rw [h] at h2
    have h3 : Nat.digits 10 n = [0] := by rw [← h2]; rfl
    have h4 := Nat.getLast_digit_ne_zero 10 hn
    simp [h3] at h4
  · intro h; subst h; rfl

theorem toDigits_injective (n m : Nat) (h : Nat.toDigits 10 n = Nat.toDigits 10 m) : n = m := by
  by_cases hn : n = 0
  · subst hn
    exact ((toDigits_zero_iff m).1 (by rw [← h]; rfl)).symm
  · by_cases hm : m = 0
    · subst hm
      exact (toDigits_zero_iff n).1 (by rw [h]; rfl)
    · have h1 := digits_of_toDigits n hn
      have h2 := digits_of_toDigits m hm
      rw [h] at h1
      exact Nat.digits_inj_iff.1 (h1.symm.trans h2)

theorem append_colon_inj : ∀ (a b d1 d2 : List Char), ':' ∉ d1 → ':' ∉ d2 →
    a ++ ':' :: d1 = b ++ ':' :: d2 → a = b ∧ d1 = d2 := by
  intro a b d1 d2 h1 h2 h
  rcases List.append_eq_append_iff.1 h with ⟨c, hc1, hc2⟩ | ⟨c, hc1, hc2⟩
  · cases c with
    | nil => simp at hc1 hc2; exact ⟨hc1.symm, by simpa using hc2⟩
    | cons x c =>
      simp at hc2
      exfalso; apply h1; rw [hc2.2]; simp
  · cases c with
    | nil => simp at hc1 hc2; exact ⟨hc1, by simpa using hc2.symm⟩
    | cons x c =>
      simp at hc2
      exfalso; apply h2; rw [hc2.2]; simp

theorem convertToIPPort_data (ip : String) (port : Nat) :
    (convertToIPPort ip port).data = ip.data ++ ':' :: Nat.toDigits 10 port := by
  simp [convertToIPPort, String.data_append, Nat.repr, List.asString]

theorem convertToIPPort_inj (ip1 ip2 : String) (p1 p2 : Nat)
    (h : convertToIPPort ip1 p1 = convertToIPPort ip2 p2) : ip1 = ip2 ∧ p1 = p2 := by
  have hd := congrArg String.data h
  rw [convertToIPPort_data, convertToIPPort_data] at hd
  have := append_colon_inj _ _ _ _ (colon_not_mem_toDigits p1) (colon_not_mem_toDigits p2) hd
  exact ⟨String.ext this.1, toDigits_injective _ _ this.2⟩
/-! ## The endpoint index -/

theorem SafeMap.Get_Set_self {V : Type} (m : SafeMap V) (k : String) (v : V) :
    SafeMap.Get (SafeMap.Set m k v) k = some v := by
  induction m with
  | nil => simp [SafeMap.Set, SafeMap.Get]
  | cons a m ih =>
    obtain ⟨k', v'⟩ := a
    by_cases h : k' = k
    · simp [SafeMap.Set, SafeMap.Get, h]
    · simp [SafeMap.Set, SafeMap.Get, h, ih]

theorem SafeMap.Get_Set_of_ne {V : Type} (m : SafeMap V) (k k' : String) (v : V) (hne : k' ≠ k) :
    SafeMap.Get (SafeMap.Set m k v) k' = SafeMap.Get m k' := by
  induction m with
  | nil => simp [SafeMap.Set, SafeMap.Get, Ne.symm hne]
  | cons a m ih =>
    obtain ⟨k0, v0⟩ := a
    by_cases h : k0 = k
    · subst h
      simp [SafeMap.Set, SafeMap.Get, Ne.symm hne]
    · by_cases h' : k0 = k'
      · subst h'
        simp [SafeMap.Set, SafeMap.Get, h]
      · simp [SafeMap.Set, SafeMap.Get, h, h', ih]

theorem SafeMap.Get_Delete {V : Type} (m : SafeMap V) (k k' : String) :
    SafeMap.Get (SafeMap.Delete m k) k' = if k' = k then none else SafeMap.Get m k' := by
  induction m with
  | nil => simp [SafeMap.Delete, SafeMap.Get]
  | cons a m ih =>
    obtain ⟨k0, v0⟩ := a
    unfold SafeMap.Delete at ih ⊢
    by_cases h : k0 = k
    · subst h
      by_cases h' : k' = k0
      · simp [SafeMap.Get, h'] at ih ⊢
        exact ih
      · simp [SafeMap.Get, h', Ne.symm h'] at ih ⊢
        exact ih
    · by_cases h' : k' = k
      · subst h'
        simp [SafeMap.Get, h] at ih ⊢
        exact ih
      · by_cases h2 : k0 = k'
        · simp [SafeMap.Get, h, h', h2]
        · simp [SafeMap.Get, h, h', h2] at ih ⊢
          exact ih

theorem SafeMap.Get_mem {V : Type} (m : SafeMap V) (k : String) (v : V)
    (h : SafeMap.Get m k = some v) : (k, v) ∈ m := by
  induction m with
  | nil => simp [SafeMap.Get] at h
  | cons a m ih =>
    obtain ⟨k0, v0⟩ := a
    by_cases h0 : k0 = k
    · simp [SafeMap.Get, h0] at h
      simp [h0, h]
    · simp [SafeMap.Get, h0] at h
      exact List.mem_cons_of_mem _ (ih h)

theorem SafeMap.Get_of_mem {V : Type} (m : SafeMap V) (k : String) (v : V)
    (hnd : (m.map Prod.fst).Nodup) (h : (k, v) ∈ m) : SafeMap.Get m k = some v := by
  induction m with
  | nil => simp at h
  | cons a m ih =>
    obtain ⟨k0, v0⟩ := a
    simp only [List.map_cons, List.nodup_cons] at hnd
    rcases List.mem_cons.1 h with heq | hmem
    · cases heq
      simp [SafeMap.Get]
    · have hne : k0 ≠ k := by
        intro hk
        apply hnd.1
        rw [hk]
        exact List.mem_map.2 ⟨(k, v), hmem, rfl⟩
      simp [SafeMap.Get, hne, ih hnd.2 hmem]

theorem SafeMap.keys_Set {V : Type} (m : SafeMap V) (k : String) (v : V) :
    (SafeMap.Set m k v).map Prod.fst =
      if k ∈ m.map Prod.fst then m.map Prod.fst else m.map Prod.fst ++ [k] := by
  induction m with
  | nil => simp [SafeMap.Set]
  | cons a m ih =>
    obtain ⟨k0, v0⟩ := a
    by_cases h : k0 = k
    · subst h
      simp [SafeMap.Set]
    · have h' : ¬ k = k0 := fun e => h e.symm
      simp only [SafeMap.Set, h, if_false, List.map_cons, ih, List.mem_cons, h', false_or]
      split <;> simp

theorem SafeMap.nodup_Set {V : Type} (m : SafeMap V) (k : String) (v : V)
    (hnd : (m.map Prod.fst).Nodup) : ((SafeMap.Set m k v).map Prod.fst).Nodup := by
  rw [SafeMap.keys_Set]
  split
  · exact hnd
  · rename_i h
    exact List.nodup_append.2 ⟨hnd, List.nodup_singleton k, by
      intro a ha hb
      rw [List.mem_singleton.1 hb] at ha
      exact h ha⟩

theorem SafeMap.nodup_Delete {V : Type} (m : SafeMap V) (k : String)
    (hnd : (m.map Prod.fst).Nodup) : ((SafeMap.Delete m k).map Prod.fst).Nodup := by
  unfold SafeMap.Delete
  exact (List.Sublist.map Prod.fst (List.filter_sublist m)).nodup hnd

/-! ## The timeline index -/

theorem SafeTreeMap.Get_Set_same {V : Type} (t : SafeTreeMap V) (k : Int) (v : V) :
    SafeTreeMap.Get (SafeTreeMap.Set t k v) k = some v := by
  induction t with
  | nil => simp [SafeTreeMap.Set, SafeTreeMap.Get]
  | cons a t ih =>
    obtain ⟨k0, v0⟩ := a
    simp only [SafeTreeMap.Set]
    split
    · simp [SafeTreeMap.Get]
    · split
      · simp [SafeTreeMap.Get]
      · rename_i h1 h2
        have : ¬ k0 = k := fun e => h2 e.symm
        simp [SafeTreeMap.Get, this, ih]

theorem SafeTreeMap.Get_Set_other {V : Type} (t : SafeTreeMap V) (k k' : Int) (v : V)
    (hne : k' ≠ k) : SafeTreeMap.Get (SafeTreeMap.Set t k v) k' = SafeTreeMap.Get t k' := by
  induction t with
  | nil => simp [SafeTreeMap.Set, SafeTreeMap.Get, Ne.symm hne]
  | cons a t ih =>
    obtain ⟨k0, v0⟩ := a
    simp only [SafeTreeMap.Set]
    split
    · simp [SafeTreeMap.Get, Ne.symm hne]
    · split
      · rename_i h1 h2
        subst h2
        simp [SafeTreeMap.Get, Ne.symm hne]
      · by_cases h' : k0 = k'
        · simp [SafeTreeMap.Get, h']
        · simp [SafeTreeMap.Get, h', ih]

theorem SafeTreeMap.Get_Del {V : Type} (t : SafeTreeMap V) (k k' : Int) :
    SafeTreeMap.Get (SafeTreeMap.Del t k) k' =
      if k' = k then none else SafeTreeMap.Get t k' := by
  induction t with
  | nil => simp [SafeTreeMap.Del, SafeTreeMap.Get]
  | cons a t ih =>
    obtain ⟨k0, v0⟩ := a
    unfold SafeTreeMap.Del at ih ⊢
    by_cases h : k0 = k
    · subst h
      by_cases h' : k' = k0
      · simp [SafeTreeMap.Get, h'] at ih ⊢
        exact ih
      · simp [SafeTreeMap.Get, h', Ne.symm h'] at ih ⊢
        exact ih
    · by_cases h' : k' = k
      · subst h'
        simp [SafeTreeMap.Get, h] at ih ⊢
        exact ih
      · by_cases h2 : k0 = k'
        · simp [SafeTreeMap.Get, h, h', h2]
        · simp [SafeTreeMap.Get, h, h', h2] at ih ⊢
          exact ih

theorem SafeTreeMap.mem_Set {V : Type} (t : SafeTreeMap V) (k : Int) (v : V) (x : Int × V)
    (h : x ∈ SafeTreeMap.Set t k v) : x = (k, v) ∨ x ∈ t := by
  induction t with
  | nil => simp [SafeTreeMap.Set] at h; exact Or.inl h
  | cons a t ih =>
    obtain ⟨k0, v0⟩ := a
    simp only [SafeTreeMap.Set] at h
    split at h
    · rcases List.mem_cons.1 h with h | h
      · exact Or.inl h
      · exact Or.inr h
    · split at h
      · rcases List.mem_cons.1 h with h | h
        · exact Or.inl h
        · exact Or.inr (List.mem_cons_of_mem _ h)
      · rcases List.mem_cons.1 h with h | h
        · exact Or.inr (h ▸ List.mem_cons_self _ _)
        · rcases ih h with h | h
          · exact Or.inl h
          · exact Or.inr (List.mem_cons_of_mem _ h)

theorem SafeTreeMap.mem_Del {V : Type} (t : SafeTreeMap V) (k : Int) (x : Int × V) :
    x ∈ SafeTreeMap.Del t k ↔ x ∈ t ∧ x.1 ≠ k := by
  simp [SafeTreeMap.Del, List.mem_filter]

theorem SafeTreeMap.sorted_Del {V : Type} (t : SafeTreeMap V) (k : Int) (h : SortedKeys t) :
    SortedKeys (SafeTreeMap.Del t k) :=
  List.Pairwise.sublist (List.filter_sublist t) h

theorem SafeTreeMap.sorted_Set {V : Type} (t : SafeTreeMap V) (k : Int) (v : V)
    (h : SortedKeys t) : SortedKeys (SafeTreeMap.Set t k v) := by
  induction t with
  | nil => simp [SafeTreeMap.Set, SortedKeys]
  | cons a t ih =>
    obtain ⟨k0, v0⟩ := a
    unfold SortedKeys at h ih ⊢
    rw [List.pairwise_cons] at h
    simp only [SafeTreeMap.Set]
    split
    · rename_i hlt
      refine List.pairwise_cons.2 ⟨?_, List.pairwise_cons.2 h⟩
      intro x hx
      rcases List.mem_cons.1 hx with hx | hx
      · rw [hx]; exact hlt
      · exact lt_trans hlt (h.1 x hx)
    · split
      · rename_i h1 h2
        subst h2
        exact List.pairwise_cons.2 h
      · rename_i h1 h2
        refine List.pairwise_cons.2 ⟨?_, ih h.2⟩
        intro x hx
        rcases SafeTreeMap.mem_Set t k v x hx with hx | hx
        · rw [hx]
          show k0 < k
          omega
        · exact h.1 x hx

theorem SafeTreeMap.mem_of_Get {V : Type} (t : SafeTreeMap V) (k : Int) (v : V)
    (h : SafeTreeMap.Get t k = some v) : (k, v) ∈ t := by
  induction t with
  | nil => simp [SafeTreeMap.Get] at h
  | cons a t ih =>
    obtain ⟨k0, v0⟩ := a
    by_cases h0 : k0 = k
    · simp [SafeTreeMap.Get, h0] at h
      simp [h0, h]
    · simp [SafeTreeMap.Get, h0] at h
      exact List.mem_cons_of_mem _ (ih h)

theorem SafeTreeMap.Get_of_mem_sorted {V : Type} (t : SafeTreeMap V) (k : Int) (v : V)
    (hs : SortedKeys t) (h : (k, v) ∈ t) : SafeTreeMap.Get t k = some v := by
  induction t with
  | nil => simp at h
  | cons a t ih =>
    obtain ⟨k0, v0⟩ := a
    unfold SortedKeys at hs ih
    rw [List.pairwise_cons] at hs
    rcases List.mem_cons.1 h with heq | hmem
    · cases heq
      simp [SafeTreeMap.Get]
    · have hne : k0 ≠ k := ne_of_lt (hs.1 (k, v) hmem)
      simp [SafeTreeMap.Get, hne, ih hs.2 hmem]

theorem SafeTreeMap.Del_eq_self {V : Type} (t : SafeTreeMap V) (k : Int)
    (h : ∀ x ∈ t, x.1 ≠ k) : SafeTreeMap.Del t k = t := by
  unfold SafeTreeMap.Del
  exact List.filter_eq_self.2 (fun x hx => by simpa using h x hx)

/-! ## Buckets and the listing -/

theorem mem_treeToList (t : TServersByUpdatedTime) (e : Server) :
    e ∈ treeToList t ↔ ∃ k b, (k, b) ∈ t ∧ e ∈ b := by
  induction t with
  | nil => simp [treeToList]
  | cons a t ih =>
    obtain ⟨k0, b0⟩ := a
    simp only [treeToList, List.mem_append, ih, List.mem_cons]
    constructor
    · rintro (h | ⟨k, b, h1, h2⟩)
      · exact ⟨k0, b0, Or.inl rfl, h⟩
      · exact ⟨k, b, Or.inr h1, h2⟩
    · rintro ⟨k, b, h1 | h1, h2⟩
      · cases h1
        exact Or.inl h2
      · exact Or.inr ⟨k, b, h1, h2⟩

theorem treeToList_Set_perm (t : TServersByUpdatedTime) (k : Int) (v : List Server)
    (h : SafeTreeMap.Get t k = none) :
    (treeToList (SafeTreeMap.Set t k v)).Perm (v ++ treeToList t) := by
  induction t with
  | nil => simp [SafeTreeMap.Set, treeToList]
  | cons a t ih =>
    obtain ⟨k0, b0⟩ := a
    have hne : ¬ k0 = k := by
      intro e
      simp [SafeTreeMap.Get, e] at h
    have hne' : ¬ k = k0 := fun e => hne e.symm
    have ht : SafeTreeMap.Get t k = none := by
      simpa [SafeTreeMap.Get, hne] using h
    simp only [SafeTreeMap.Set, hne', if_false]
    split
    · simp [treeToList]
    · simp only [treeToList]
      refine ((ih ht).append_left b0).trans ?_
      rw [← List.append_assoc, ← List.append_assoc]
      exact List.Perm.append_right _ List.perm_append_comm

theorem treeToList_Del_perm (t : TServersByUpdatedTime) (k : Int) (b : List Server)
    (hs : SortedKeys t) (h : SafeTreeMap.Get t k = some b) :
    (treeToList t).Perm (b ++ treeToList (SafeTreeMap.Del t k)) := by
  induction t with
  | nil => simp [SafeTreeMap.Get] at h
  | cons a t ih =>
    obtain ⟨k0, b0⟩ := a
    unfold SortedKeys at hs ih
    rw [List.pairwise_cons] at hs
    by_cases h0 : k0 = k
    · subst h0
      simp only [SafeTreeMap.Get, if_true, Option.some.injEq] at h
      subst h
      have hrest : SafeTreeMap.Del t k0 = t :=
        SafeTreeMap.Del_eq_self t k0 (fun x hx => ne_of_gt (hs.1 x hx))
      have : SafeTreeMap.Del ((k0, b0) :: t) k0 = t := by
        rw [← hrest]
        simp [SafeTreeMap.Del]
      rw [this]
      simp [treeToList]
    · have ht : SafeTreeMap.Get t k = some b := by
        simpa [SafeTreeMap.Get, h0] using h
      have : SafeTreeMap.Del ((k0, b0) :: t) k = (k0, b0) :: SafeTreeMap.Del t k := by
        simp [SafeTreeMap.Del, h0]
      rw [this]
      simp only [treeToList]
      refine ((ih hs.2 ht).append_left b0).trans ?_
      rw [← List.append_assoc, ← List.append_assoc]
      exact List.Perm.append_right _ List.perm_append_comm

theorem treeToList_filter_sublist (t : TServersByUpdatedTime) (p : Int × List Server → Bool) :
    (treeToList (t.filter p)).Sublist (treeToList t) := by
  induction t with
  | nil => simp [treeToList]
  | cons a t ih =>
    obtain ⟨k0, b0⟩ := a
    by_cases hp : p (k0, b0) = true
    · simp only [List.filter_cons, hp, if_true, treeToList]
      exact List.Sublist.append (List.Sublist.refl b0) ih
    · simp only [List.filter_cons, hp, treeToList]
      exact ih.trans (List.sublist_append_right b0 _)

theorem appendToServersTree_perm (t : TServersByUpdatedTime) (e : Server) (hs : SortedKeys t) :
    (treeToList (appendToServersTree t e)).Perm (e :: treeToList t) := by
  unfold appendToServersTree
  cases hg : SafeTreeMap.Get t e.UpdatedAt with
  | none =>
    simp only
    exact treeToList_Set_perm t e.UpdatedAt [e] hg
  | some b =>
    simp only
    have h1 := treeToList_Set_perm (SafeTreeMap.Del t e.UpdatedAt) e.UpdatedAt (b ++ [e])
      (by rw [SafeTreeMap.Get_Del]; simp)
    have h2 := treeToList_Del_perm t e.UpdatedAt b hs hg
    refine h1.trans ?_
    rw [List.append_assoc]
    refine (List.perm_append_comm).trans ?_
    rw [List.append_assoc]
    simp only [List.singleton_append]
    refine List.Perm.cons e ?_
    exact (List.perm_append_comm).trans h2.symm

theorem appendToServersTree_sorted (t : TServersByUpdatedTime) (e : Server) (hs : SortedKeys t) :
    SortedKeys (appendToServersTree t e) := by
  unfold appendToServersTree
  cases hg : SafeTreeMap.Get t e.UpdatedAt with
  | none => exact SafeTreeMap.sorted_Set _ _ _ hs
  | some b => exact SafeTreeMap.sorted_Set _ _ _ (SafeTreeMap.sorted_Del _ _ hs)

theorem appendToServersTree_bucketsKeyed (t : TServersByUpdatedTime) (e : Server)
    (hb : BucketsKeyed t) : BucketsKeyed (appendToServersTree t e) := by
  unfold appendToServersTree
  cases hg : SafeTreeMap.Get t e.UpdatedAt with
  | none =>
    intro k b hmem x hx
    rcases SafeTreeMap.mem_Set _ _ _ _ hmem with h | h
    · cases h
      simp at hx
      rw [hx]
    · exact hb k b h x hx
  | some b0 =>
    intro k b hmem x hx
    rcases SafeTreeMap.mem_Set _ _ _ _ hmem with h | h
    · cases h
      rcases List.mem_append.1 hx with hx | hx
      · exact hb _ _ (SafeTreeMap.mem_of_Get _ _ _ hg) x hx
      · simp at hx
        rw [hx]
    · exact hb k b ((SafeTreeMap.mem_Del _ _ _).1 h).1 x hx

/-! ## Taking a server out of its bucket -/

theorem findServerIndex_some (ip : String) (port : Nat) :
    ∀ (l : List Server) (i : Fin l.length), findServerIndex ip port l = some i →
      (l.get i).IP = ip ∧ (l.get i).Port = port := by
  intro l
  induction l with
  | nil => intro i; exact i.elim0
  | cons a l ih =>
    intro i h
    by_cases hc : a.IP = ip ∧ a.Port = port
    · simp only [findServerIndex, hc, and_self, if_true, Option.some.injEq] at h
      subst h
      exact hc
    · simp only [findServerIndex, hc, if_false, Option.map_eq_some'] at h
      obtain ⟨j, hj, hi⟩ := h
      subst hi
      exact ih j hj

theorem findServerIndex_of_mem (ip : String) (port : Nat) (l : List Server) (e : Server)
    (he : e ∈ l) (hip : e.IP = ip) (hport : e.Port = port) :
    ∃ i, findServerIndex ip port l = some i := by
  induction l with
  | nil => simp at he
  | cons a l ih =>
    by_cases hc : a.IP = ip ∧ a.Port = port
    · exact ⟨⟨0, Nat.succ_pos _⟩, by simp [findServerIndex, hc]⟩
    · rcases List.mem_cons.1 he with h | h
      · exact absurd ⟨h ▸ hip, h ▸ hport⟩ hc
      · obtain ⟨i, hi⟩ := ih h
        exact ⟨i.succ, by simp [findServerIndex, hc, hi]⟩

theorem swapRemove_perm : ∀ (l : List Server) (i : Fin l.length),
    l.Perm (l.get i :: swapRemove l i) := by
  intro l
  induction l with
  | nil => intro i; exact i.elim0
  | cons x xs ih =>
    intro i
    cases xs with
    | nil =>
      obtain ⟨i, hi⟩ := i
      have : i = 0 := by simpa using hi
      subst this
      simp [swapRemove]
    | cons y ys =>
      obtain ⟨i, hi⟩ := i
      cases i with
      | zero =>
        simp only [swapRemove, List.length_cons, Nat.add_sub_cancel, List.get_eq_getElem,
          List.set_cons_zero, List.take_succ_cons, List.getElem_cons_zero, List.getElem_cons_succ]
        refine List.Perm.cons x ?_
        have h1 : (y :: ys).take ys.length = (y :: ys).dropLast := by
          rw [List.dropLast_eq_take]; simp
        have h2 : (y :: ys)[ys.length] = (y :: ys).getLast (by simp) := by
          rw [List.getLast_eq_getElem]; simp
        rw [h1, h2]
        have h3 := List.dropLast_append_getLast (l := y :: ys) (by simp)
        exact (List.Perm.of_eq h3.symm).trans List.perm_append_comm
      | succ j =>
        have hj : j < (y :: ys).length := by simpa using hi
        have := ih ⟨j, hj⟩
        simp only [swapRemove, List.length_cons, Nat.add_sub_cancel, List.get_eq_getElem,
          List.set_cons_succ, List.take_succ_cons, List.getElem_cons_succ] at this ⊢
        exact (List.Perm.cons x this).trans (List.Perm.swap _ _ _)

theorem swapRemove_subset (l : List Server) (i : Fin l.length) (e : Server)
    (h : e ∈ swapRemove l i) : e ∈ l :=
  (swapRemove_perm l i).symm.subset (List.mem_cons_of_mem _ h)

theorem removeFromServersTree_of_absent (t : TServersByUpdatedTime) (old : Server)
    (hg : SafeTreeMap.Get t old.UpdatedAt = none) : removeFromServersTree t old = t := by
  simp only [removeFromServersTree, hg]

theorem removeFromServersTree_of_nil (t : TServersByUpdatedTime) (old : Server)
    (b : List Server) (hg : SafeTreeMap.Get t old.UpdatedAt = some b)
    (hf : findServerIndex old.IP old.Port b = none) : removeFromServersTree t old = t := by
  simp only [removeFromServersTree, hg, hf]

theorem removeFromServersTree_of_found (t : TServersByUpdatedTime) (old : Server)
    (b : List Server) (i : Fin b.length) (hg : SafeTreeMap.Get t old.UpdatedAt = some b)
    (hf : findServerIndex old.IP old.Port b = some i) :
    removeFromServersTree t old =
      SafeTreeMap.Set (SafeTreeMap.Del t old.UpdatedAt) old.UpdatedAt (swapRemove b i) := by
  simp only [removeFromServersTree, hg, hf]

theorem removeFromServersTree_sorted (t : TServersByUpdatedTime) (old : Server)
    (hs : SortedKeys t) : SortedKeys (removeFromServersTree t old) := by
  cases hg : SafeTreeMap.Get t old.UpdatedAt with
  | none => rw [removeFromServersTree_of_absent t old hg]; exact hs
  | some b =>
    cases hf : findServerIndex old.IP old.Port b with
    | none => rw [removeFromServersTree_of_nil t old b hg hf]; exact hs
    | some i =>
      rw [removeFromServersTree_of_found t old b i hg hf]
      exact SafeTreeMap.sorted_Set _ _ _ (SafeTreeMap.sorted_Del _ _ hs)

theorem removeFromServersTree_bucketsKeyed (t : TServersByUpdatedTime) (old : Server)
    (hb : BucketsKeyed t) : BucketsKeyed (removeFromServersTree t old) := by
  cases hg : SafeTreeMap.Get t old.UpdatedAt with
  | none => rw [removeFromServersTree_of_absent t old hg]; exact hb
  | some b0 =>
    cases hf : findServerIndex old.IP old.Port b0 with
    | none => rw [removeFromServersTree_of_nil t old b0 hg hf]; exact hb
    | some i =>
      rw [removeFromServersTree_of_found t old b0 i hg hf]
      intro k b hmem x hx
      rcases SafeTreeMap.mem_Set _ _ _ _ hmem with h | h
      · cases h
        exact hb _ _ (SafeTreeMap.mem_of_Get _ _ _ hg) x (swapRemove_subset _ _ _ hx)
      · exact hb k b ((SafeTreeMap.mem_Del _ _ _).1 h).1 x hx

/-- When the bucket of the existing server holds a server with its IP and port,
the listing before the removal is the listing after it plus one server with
that IP and port. -/
theorem removeFromServersTree_perm (t : TServersByUpdatedTime) (old : Server)
    (hs : SortedKeys t) (hmem : old ∈ bucketAt t old.UpdatedAt) :
    ∃ x, x.IP = old.IP ∧ x.Port = old.Port ∧
      (treeToList t).Perm (x :: treeToList (removeFromServersTree t old)) := by
  unfold bucketAt at hmem
  cases hg : SafeTreeMap.Get t old.UpdatedAt with
  | none => simp [hg] at hmem
  | some b =>
    rw [hg] at hmem
    simp only [Option.getD_some] at hmem
    obtain ⟨i, hi⟩ := findServerIndex_of_mem old.IP old.Port b old hmem rfl rfl
    rw [removeFromServersTree_of_found t old b i hg hi]
    obtain ⟨h1, h2⟩ := findServerIndex_some _ _ b i hi
    refine ⟨b.get i, h1, h2, ?_⟩
    have p1 := treeToList_Del_perm t old.UpdatedAt b hs hg
    have p2 := treeToList_Set_perm (SafeTreeMap.Del t old.UpdatedAt) old.UpdatedAt
      (swapRemove b i) (by rw [SafeTreeMap.Get_Del]; simp)
    refine p1.trans ?_
    refine ((swapRemove_perm b i).append_right _).trans ?_
    exact List.Perm.cons _ p2.symm

/-! ## The sweep -/

theorem deleteServersFromMap_append (m : TServersByIPPort) (l1 l2 : List Server) :
    deleteServersFromMap m (l1 ++ l2) = deleteServersFromMap (deleteServersFromMap m l1) l2 := by
  induction l1 generalizing m with
  | nil => rfl
  | cons a l1 ih => simp [deleteServersFromMap, ih]

theorem deleteServersFromMap_sublist (m : TServersByIPPort) (l : List Server) :
    (deleteServersFromMap m l).Sublist m := by
  induction l generalizing m with
  | nil => exact List.Sublist.refl m
  | cons a l ih =>
    simp only [deleteServersFromMap]
    exact (ih _).trans (List.filter_sublist m)

theorem deleteServersFromMap_Get_of_mem (m : TServersByIPPort) (l : List Server) (k : String)
    (h : ∃ s ∈ l, s.ipPort = k) : SafeMap.Get (deleteServersFromMap m l) k = none := by
  induction l generalizing m with
  | nil => simp at h
  | cons a l ih =>
    simp only [deleteServersFromMap]
    by_cases hl : ∃ s ∈ l, s.ipPort = k
    · exact ih _ hl
    · obtain ⟨s, hs, hk⟩ := h
      rcases List.mem_cons.1 hs with hs | hs
      · subst hs
        have hsub := deleteServersFromMap_sublist
          (SafeMap.Delete m (convertToIPPort s.IP s.Port)) l
        cases hg : SafeMap.Get
            (deleteServersFromMap (SafeMap.Delete m (convertToIPPort s.IP s.Port)) l) k with
        | none => rfl
        | some v =>
          have h1 := hsub.subset (SafeMap.Get_mem _ _ _ hg)
          simp only [SafeMap.Delete, List.mem_filter] at h1
          have h2 := h1.2
          simp only [Server.ipPort] at hk
          simp [hk] at h2
      · exact absurd ⟨s, hs, hk⟩ hl

theorem deleteServersFromMap_Get_of_not_mem (m : TServersByIPPort) (l : List Server)
    (k : String) (h : ∀ s ∈ l, s.ipPort ≠ k) :
    SafeMap.Get (deleteServersFromMap m l) k = SafeMap.Get m k := by
  induction l generalizing m with
  | nil => rfl
  | cons a l ih =>
    simp only [deleteServersFromMap]
    rw [ih _ (fun s hs => h s (List.mem_cons_of_mem _ hs)), SafeMap.Get_Delete]
    have := h a (List.mem_cons_self _ _)
    simp only [Server.ipPort] at this
    simp [Ne.symm this]

theorem scanExpired_eq (timeNow : Int) (l : List (Int × List Server)) (m : TServersByIPPort)
    (acc : List Int) :
    scanExpired timeNow l m acc =
      (deleteServersFromMap m (treeToList (l.filter (fun kv => isExpired timeNow kv.1))),
        acc ++ (l.filter (fun kv => isExpired timeNow kv.1)).map Prod.fst) := by
  induction l generalizing m acc with
  | nil => simp [scanExpired, treeToList, deleteServersFromMap]
  | cons a l ih =>
    obtain ⟨k, b⟩ := a
    by_cases hk : isExpired timeNow k = true
    · simp [scanExpired, hk, ih, treeToList, deleteServersFromMap_append]
    · simp [scanExpired, hk, ih]

theorem deleteKeys_eq (t : TServersByUpdatedTime) (ks : List Int) :
    deleteKeys t ks = t.filter (fun kv => decide (kv.1 ∉ ks)) := by
  induction ks generalizing t with
  | nil => simp [deleteKeys]
  | cons k ks ih =>
    simp only [deleteKeys, ih, SafeTreeMap.Del, List.filter_filter]
    apply List.filter_congr
    intro x _
    simp only [List.mem_cons, not_or, ne_eq, Bool.decide_and, decide_not]
    exact Bool.and_comm _ _

theorem removeExpiredServers_tree (timeNow : Int) (s : ServerController) :
    (removeExpiredServers timeNow s).serversByUpdatedTime =
      s.serversByUpdatedTime.filter (fun kv => ! isExpired timeNow kv.1) := by
  simp only [removeExpiredServers, scanExpired_eq, deleteKeys_eq, List.nil_append]
  apply List.filter_congr
  intro x hx
  by_cases he : isExpired timeNow x.1 = true
  · have : x.1 ∈ (List.filter (fun kv => isExpired timeNow kv.1) s.serversByUpdatedTime).map
        Prod.fst := List.mem_map.2 ⟨x, List.mem_filter.2 ⟨hx, he⟩, rfl⟩
    simp [this, he]
  · have : x.1 ∉ (List.filter (fun kv => isExpired timeNow kv.1) s.serversByUpdatedTime).map
        Prod.fst := by
      intro hmem
      obtain ⟨y, hy, hxy⟩ := List.mem_map.1 hmem
      have := (List.mem_filter.1 hy).2
      rw [hxy] at this
      exact he this
    simp [this, he]

theorem removeExpiredServers_map (timeNow : Int) (s : ServerController) :
    (removeExpiredServers timeNow s).serversByIPPort =
      deleteServersFromMap s.serversByIPPort
        (treeToList (s.serversByUpdatedTime.filter (fun kv => isExpired timeNow kv.1))) := by
  simp only [removeExpiredServers, scanExpired_eq]

/-! ## The invariant -/

theorem Server.ipPort_eq_iff (a b : Server) :
    a.ipPort = b.ipPort ↔ a.IP = b.IP ∧ a.Port = b.Port := by
  constructor
  · exact convertToIPPort_inj _ _ _ _
  · rintro ⟨h1, h2⟩
    simp [Server.ipPort, h1, h2]

theorem RegisterServer_of_absent (s : ServerController) (e : Server)
    (h : SafeMap.Get s.serversByIPPort e.ipPort = none) :
    RegisterServer s e =
      { serversByUpdatedTime := appendToServersTree s.serversByUpdatedTime e
        serversByIPPort := SafeMap.Set s.serversByIPPort e.ipPort e } := by
  simp only [Server.ipPort] at h
  simp only [RegisterServer, h, Server.ipPort]

theorem RegisterServer_of_found (s : ServerController) (e old : Server)
    (h : SafeMap.Get s.serversByIPPort e.ipPort = some old) :
    RegisterServer s e =
      { serversByUpdatedTime :=
          appendToServersTree (removeFromServersTree s.serversByUpdatedTime old) e
        serversByIPPort := SafeMap.Set s.serversByIPPort e.ipPort e } := by
  simp only [Server.ipPort] at h
  simp only [RegisterServer, h, Server.ipPort, updateInServersTree]

theorem Inv.mem_bucketAt {s : ServerController} (hinv : Inv s) (e : Server)
    (h : e ∈ treeToList s.serversByUpdatedTime) :
    e ∈ bucketAt s.serversByUpdatedTime e.UpdatedAt := by
  obtain ⟨k, b, hkb, heb⟩ := (mem_treeToList _ _).1 h
  have hk := hinv.bucketsKeyed k b hkb e heb
  subst hk
  simp [bucketAt, SafeTreeMap.Get_of_mem_sorted _ _ _ hinv.sorted hkb, heb]

theorem Inv.init : Inv NewServerController := by
  refine ⟨?_, ?_, ?_, ?_, ?_, ?_⟩ <;>
    simp [NewServerController, NewSafeTreeMap, NewSafeMap, SortedKeys, BucketsKeyed,
      treeToList, SafeMap.Get]

/-- The last step of an upsert: appending the incoming server to a tree that
holds no server of its endpoint. -/
theorem Inv.append_step {s : ServerController} (hinv : Inv s) (t1 : TServersByUpdatedTime)
    (E : Server) (h1 : SortedKeys t1) (h2 : BucketsKeyed t1)
    (h3 : ∀ e ∈ treeToList t1, e ∈ treeToList s.serversByUpdatedTime ∧ e.ipPort ≠ E.ipPort)
    (h4 : ∀ e ∈ treeToList s.serversByUpdatedTime, e.ipPort ≠ E.ipPort → e ∈ treeToList t1)
    (h5 : ((treeToList t1).map Server.ipPort).Nodup) :
    Inv { serversByUpdatedTime := appendToServersTree t1 E
          serversByIPPort := SafeMap.Set s.serversByIPPort E.ipPort E } := by
  have P := appendToServersTree_perm t1 E h1
  refine ⟨appendToServersTree_sorted t1 E h1, appendToServersTree_bucketsKeyed t1 E h2,
    ?_, ?_, ?_, SafeMap.nodup_Set _ _ _ hinv.nodupMap⟩
  · intro e he
    rcases List.mem_cons.1 (P.subset he) with h | h
    · subst h
      exact SafeMap.Get_Set_self _ _ _
    · obtain ⟨hm, hne⟩ := h3 e h
      show SafeMap.Get (SafeMap.Set s.serversByIPPort E.ipPort E) e.ipPort = some e
      rw [SafeMap.Get_Set_of_ne _ _ _ _ hne]
      exact hinv.treeInMap e hm
  · intro key e hg
    show key = e.ipPort ∧ e ∈ treeToList (appendToServersTree t1 E)
    have hg' : SafeMap.Get (SafeMap.Set s.serversByIPPort E.ipPort E) key = some e := hg
    by_cases hk : key = E.ipPort
    · subst hk
      rw [SafeMap.Get_Set_self] at hg'
      cases hg'
      exact ⟨rfl, P.symm.subset (List.mem_cons_self _ _)⟩
    · rw [SafeMap.Get_Set_of_ne _ _ _ _ hk] at hg'
      obtain ⟨hke, hmem⟩ := hinv.mapInTree key e hg'
      refine ⟨hke, P.symm.subset (List.mem_cons_of_mem _ (h4 e hmem ?_))⟩
      rw [← hke]
      exact hk
  · show ((treeToList (appendToServersTree t1 E)).map Server.ipPort).Nodup
    refine ((P.map Server.ipPort).nodup_iff).2 ?_
    rw [List.map_cons]
    refine List.nodup_cons.2 ⟨?_, h5⟩
    intro hmem
    obtain ⟨e, he, hke⟩ := List.mem_map.1 hmem
    exact (h3 e he).2 hke

theorem Inv.register_step {s : ServerController} (hinv : Inv s) (E : Server) :
    Inv (RegisterServer s E) := by
  cases hg : SafeMap.Get s.serversByIPPort E.ipPort with
  | none =>
    rw [RegisterServer_of_absent s E hg]
    refine hinv.append_step _ E hinv.sorted hinv.bucketsKeyed ?_ (fun e he _ => he)
      hinv.nodupTree
    intro e he
    refine ⟨he, ?_⟩
    intro hk
    have := hinv.treeInMap e he
    rw [hk, hg] at this
    cases this
  | some old =>
    rw [RegisterServer_of_found s E old hg]
    obtain ⟨hkey, hold⟩ := hinv.mapInTree _ _ hg
    obtain ⟨x, hx1, hx2, P1⟩ := removeFromServersTree_perm s.serversByUpdatedTime old
      hinv.sorted (hinv.mem_bucketAt old hold)
    have hxk : x.ipPort = E.ipPort := by
      rw [hkey]
      exact (Server.ipPort_eq_iff _ _).2 ⟨hx1, hx2⟩
    have hnd := ((P1.map Server.ipPort).nodup_iff).1 hinv.nodupTree
    rw [List.map_cons] at hnd
    obtain ⟨hnot, hnd1⟩ := List.nodup_cons.1 hnd
    refine hinv.append_step _ E (removeFromServersTree_sorted _ _ hinv.sorted)
      (removeFromServersTree_bucketsKeyed _ _ hinv.bucketsKeyed) ?_ ?_ hnd1
    · intro e he
      refine ⟨P1.symm.subset (List.mem_cons_of_mem _ he), ?_⟩
      intro hk
      apply hnot
      rw [hxk, ← hk]
      exact List.mem_map.2 ⟨e, he, rfl⟩
    · intro e he hne
      rcases List.mem_cons.1 (P1.subset he) with h | h
      · subst h
        exact absurd hxk hne
      · exact h

theorem Inv.sweep_step {s : ServerController} (hinv : Inv s) (timeNow : Int) :
    Inv (removeExpiredServers timeNow s) := by
  have ht := removeExpiredServers_tree timeNow s
  have hm := removeExpiredServers_map timeNow s
  have hsub : (treeToList (removeExpiredServers timeNow s).serversByUpdatedTime).Sublist
      (treeToList s.serversByUpdatedTime) := by
    rw [ht]; exact treeToList_filter_sublist _ _
  -- a server of a kept bucket is not deleted from the map
  have hkept : ∀ e ∈ treeToList (removeExpiredServers timeNow s).serversByUpdatedTime,
      isExpired timeNow e.UpdatedAt = false := by
    intro e he
    rw [ht] at he
    obtain ⟨k, b, hkb, heb⟩ := (mem_treeToList _ _).1 he
    obtain ⟨hkb', hp⟩ := List.mem_filter.1 hkb
    rw [hinv.bucketsKeyed k b hkb' e heb]
    simpa using hp
  have hdel : ∀ e ∈ treeToList
      (s.serversByUpdatedTime.filter (fun kv => isExpired timeNow kv.1)),
      e ∈ treeToList s.serversByUpdatedTime ∧ isExpired timeNow e.UpdatedAt = true := by
    intro e he
    refine ⟨(treeToList_filter_sublist _ _).subset he, ?_⟩
    obtain ⟨k, b, hkb, heb⟩ := (mem_treeToList _ _).1 he
    obtain ⟨hkb', hp⟩ := List.mem_filter.1 hkb
    rw [hinv.bucketsKeyed k b hkb' e heb]
    exact hp
  refine ⟨?_, ?_, ?_, ?_, ?_, ?_⟩
  · rw [ht]; exact List.Pairwise.sublist (List.filter_sublist _) hinv.sorted
  · rw [ht]
    intro k b hkb
    exact hinv.bucketsKeyed k b (List.mem_filter.1 hkb).1
  · intro e he
    rw [hm, deleteServersFromMap_Get_of_not_mem]
    · exact hinv.treeInMap e (hsub.subset he)
    · intro x hx hk
      obtain ⟨hx1, hx2⟩ := hdel x hx
      have e1 := hinv.treeInMap x hx1
      have e2 := hinv.treeInMap e (hsub.subset he)
      rw [hk, e2] at e1
      cases e1
      rw [hkept e he] at hx2
      cases hx2
  · intro key e hg
    rw [hm] at hg
    by_cases hex : ∃ x ∈ treeToList
        (s.serversByUpdatedTime.filter (fun kv => isExpired timeNow kv.1)), x.ipPort = key
    · rw [deleteServersFromMap_Get_of_mem _ _ _ hex] at hg
      cases hg
    · rw [deleteServersFromMap_Get_of_not_mem _ _ _ (fun x hx hk => hex ⟨x, hx, hk⟩)] at hg
      obtain ⟨hke, hmem⟩ := hinv.mapInTree key e hg
      refine ⟨hke, ?_⟩
      rw [ht]
      obtain ⟨k, b, hkb, heb⟩ := (mem_treeToList _ _).1 hmem
      refine (mem_treeToList _ _).2 ⟨k, b, List.mem_filter.2 ⟨hkb, ?_⟩, heb⟩
      by_contra hne
      apply hex
      refine ⟨e, (mem_treeToList _ _).2 ⟨k, b, List.mem_filter.2 ⟨hkb, ?_⟩, heb⟩, hke.symm⟩
      simpa using hne
  · exact (hsub.map Server.ipPort).nodup hinv.nodupTree
  · rw [hm]
    exact ((deleteServersFromMap_sublist _ _).map Prod.fst).nodup hinv.nodupMap

theorem Reachable.inv {s : ServerController} (h : Reachable s) : Inv s := by
  induction h with
  | init => exact Inv.init
  | register s e _ ih => exact ih.register_step e
  | sweep s timeNow _ ih => exact ih.sweep_step timeNow

/-! ## Consequences of the invariant -/

theorem RegisterServer_map (s : ServerController) (e : Server) :
    (RegisterServer s e).serversByIPPort = SafeMap.Set s.serversByIPPort e.ipPort e := by
  cases hg : SafeMap.Get s.serversByIPPort e.ipPort with
  | none => rw [RegisterServer_of_absent s e hg]
  | some old => rw [RegisterServer_of_found s e old hg]

theorem findServer_of_some (s : ServerController) (ip : String) (port : Nat) (e : Server)
    (h : SafeMap.Get s.serversByIPPort (convertToIPPort ip port) = some e) :
    findServer s ip port = (Except.ok e, s) := by
  simp only [findServer, h]

theorem findServer_of_none (s : ServerController) (ip : String) (port : Nat)
    (h : SafeMap.Get s.serversByIPPort (convertToIPPort ip port) = none) :
    findServer s ip port = (Except.error "server not found", s) := by
  simp only [findServer, h]

theorem Inv.eq_of_ipPort_eq {s : ServerController} (hinv : Inv s) (a b : Server)
    (ha : a ∈ treeToList s.serversByUpdatedTime) (hb : b ∈ treeToList s.serversByUpdatedTime)
    (h : a.ipPort = b.ipPort) : a = b := by
  have h1 := hinv.treeInMap a ha
  have h2 := hinv.treeInMap b hb
  rw [h, h2] at h1
  exact (Option.some.inj h1).symm

theorem Inv.nodup_treeToList {s : ServerController} (hinv : Inv s) :
    (treeToList s.serversByUpdatedTime).Nodup :=
  List.Nodup.of_map _ hinv.nodupTree

/-- Under the invariant the listing holds exactly one server with the endpoint
of a stored server: the stored server itself. -/
theorem Inv.filter_sameEndpoint {s : ServerController} (hinv : Inv s) (e : Server)
    (he : e ∈ treeToList s.serversByUpdatedTime) :
    (treeToList s.serversByUpdatedTime).filter (fun x => decide (sameEndpoint x e)) = [e] := by
  have hcongr : (treeToList s.serversByUpdatedTime).filter (fun x => decide (sameEndpoint x e)) =
      (treeToList s.serversByUpdatedTime).filter (fun x => decide (x = e)) := by
    apply List.filter_congr
    intro x hx
    by_cases hxe : sameEndpoint x e
    · have : x = e := hinv.eq_of_ipPort_eq x e hx he ((Server.ipPort_eq_iff _ _).2 hxe)
      rw [decide_eq_true hxe, decide_eq_true this]
    · have : ¬ x = e := by
        intro h
        apply hxe
        rw [h]
        exact ⟨rfl, rfl⟩
      rw [decide_eq_false hxe, decide_eq_false this]
  rw [hcongr, List.filter_eq, List.count_eq_one_of_mem hinv.nodup_treeToList he]
  rfl

theorem treeToList_sorted (t : TServersByUpdatedTime) (hs : SortedKeys t)
    (hb : BucketsKeyed t) :
    (treeToList t).Pairwise (fun a b => a.UpdatedAt ≤ b.UpdatedAt) := by
  induction t with
  | nil => simp [treeToList]
  | cons a t ih =>
    obtain ⟨k0, b0⟩ := a
    unfold SortedKeys at hs ih
    rw [List.pairwise_cons] at hs
    have hb' : BucketsKeyed t := fun k b hkb => hb k b (List.mem_cons_of_mem _ hkb)
    simp only [treeToList]
    refine List.pairwise_append.2 ⟨?_, ih hs.2 hb', ?_⟩
    · refine List.pairwise_of_forall_mem_list ?_
      intro x hx y hy
      rw [hb k0 b0 (List.mem_cons_self _ _) x hx, hb k0 b0 (List.mem_cons_self _ _) y hy]
    · intro x hx y hy
      obtain ⟨k, b, hkb, hyb⟩ := (mem_treeToList _ _).1 hy
      rw [hb k0 b0 (List.mem_cons_self _ _) x hx, hb' k b hkb y hyb]
      exact le_of_lt (hs.1 (k, b) hkb)

theorem bucketAt_appendToServersTree (t : TServersByUpdatedTime) (e : Server) (k : Int) :
    bucketAt (appendToServersTree t e) k =
      if k = e.UpdatedAt then bucketAt t k ++ [e] else bucketAt t k := by
  unfold appendToServersTree bucketAt
  cases hg : SafeTreeMap.Get t e.UpdatedAt with
  | none =>
    by_cases hk : k = e.UpdatedAt
    · subst hk
      simp [SafeTreeMap.Get_Set_same, hg]
    · simp [SafeTreeMap.Get_Set_other _ _ _ _ hk, hk]
  | some b =>
    by_cases hk : k = e.UpdatedAt
    · subst hk
      simp [SafeTreeMap.Get_Set_same, hg]
    · simp [SafeTreeMap.Get_Set_other _ _ _ _ hk, SafeTreeMap.Get_Del, hk]

theorem count_bucketAt_removeFromServersTree (t : TServersByUpdatedTime) (old e : Server)
    (k : Int) (hne : ¬ sameEndpoint e old) :
    (bucketAt (removeFromServersTree t old) k).count e = (bucketAt t k).count e := by
  cases hg : SafeTreeMap.Get t old.UpdatedAt with
  | none => rw [removeFromServersTree_of_absent t old hg]
  | some b =>
    cases hf : findServerIndex old.IP old.Port b with
    | none => rw [removeFromServersTree_of_nil t old b hg hf]
    | some i =>
      rw [removeFromServersTree_of_found t old b i hg hf]
      unfold bucketAt
      by_cases hk : k = old.UpdatedAt
      · subst hk
        rw [SafeTreeMap.Get_Set_same, hg]
        simp only [Option.getD_some]
        have hp := (swapRemove_perm b i).count_eq e
        have hx := findServerIndex_some _ _ b i hf
        have hne2 : e ≠ b.get i := by
          intro h'
          apply hne
          rw [h']
          exact hx
        rw [hp, List.count_cons_of_ne hne2]
      · rw [SafeTreeMap.Get_Set_other _ _ _ _ hk, SafeTreeMap.Get_Del]
        simp [hk]

theorem wrapInt64_of_inRange (x : Int) (h1 : -(2 ^ 63) ≤ x) (h2 : x < 2 ^ 63) :
    wrapInt64 x = x := by
  unfold wrapInt64
  rw [Int.emod_eq_of_lt (by omega) (by omega)]
  omega

theorem isExpired_iff (timeNow key : Int) :
    isExpired timeNow key = true ↔ sub64 timeNow key > 300 := by
  simp [isExpired, SERVER_EXPIRY_TIME_IN_SECONDS]

theorem removeExpiredServers_key_kept (timeNow : Int) (s : ServerController) (k : Int)
    (b : List Server) (h : (k, b) ∈ (removeExpiredServers timeNow s).serversByUpdatedTime) :
    isExpired timeNow k = false := by
  rw [removeExpiredServers_tree] at h
  simpa using (List.mem_filter.1 h).2

theorem bucket_sublist_treeToList (t : TServersByUpdatedTime) (k : Int) (b : List Server)
    (h : (k, b) ∈ t) : b.Sublist (treeToList t) := by
  induction t with
  | nil => simp at h
  | cons a t ih =>
    obtain ⟨k0, b0⟩ := a
    simp only [treeToList]
    rcases List.mem_cons.1 h with h | h
    · cases h
      exact List.sublist_append_left _ _
    · exact (ih h).trans (List.sublist_append_right _ _)

theorem bucketAt_sublist_treeToList (t : TServersByUpdatedTime) (k : Int) :
    (bucketAt t k).Sublist (treeToList t) := by
  unfold bucketAt
  cases hg : SafeTreeMap.Get t k with
  | none => simp
  | some b => exact bucket_sublist_treeToList t k b (SafeTreeMap.mem_of_Get _ _ _ hg)

theorem reachable_stateA : Reachable stateA :=
  Reachable.register _ _ Reachable.init

theorem reachable_stateAB : Reachable stateAB :=
  Reachable.register _ _ reachable_stateA

theorem reachable_stateABC : Reachable stateABC :=
  Reachable.register _ _ (Reachable.register _ _ reachable_stateA)

/-! ## The claims -/

/-- C1 (round trip). For every registry state and every server `E` whose
endpoint has no entry in the endpoint index, after `RegisterServer` with `E`
the call `findServer E.IP E.Port` succeeds and returns `E` itself (same IP,
port, players and `UpdatedAt`). -/
theorem C1_round_trip (s : ServerController) (E : Server)
    (hfresh : SafeMap.Get s.serversByIPPort (convertToIPPort E.IP E.Port) = none) :
    (findServer (RegisterServer s E) E.IP E.Port).1 = Except.ok E := by
  have h : SafeMap.Get (RegisterServer s E).serversByIPPort (convertToIPPort E.IP E.Port)
      = some E := by
    rw [RegisterServer_of_absent s E hfresh]
    exact SafeMap.Get_Set_self _ _ _
  rw [findServer_of_some _ _ _ _ h]

/-- Instance of C1: `serverA10` registers with the empty registry. -/
theorem C1_round_trip_witness :
    SafeMap.Get NewServerController.serversByIPPort
        (convertToIPPort serverA10.IP serverA10.Port) = none ∧
      (findServer (RegisterServer NewServerController serverA10) serverA10.IP
        serverA10.Port).1 = Except.ok serverA10 :=
  ⟨rfl, C1_round_trip NewServerController serverA10 rfl⟩

/-- C2 (idempotent update). For every reachable registry state and every two
servers `E` and `E'` with the same endpoint, whatever their `UpdatedAt`, after
`RegisterServer` with `E` and then with `E'` the endpoint index maps the
endpoint to `E'`, and the list of `treeToList` holds exactly one server with
that endpoint, which is `E'`. -/
theorem C2_idempotent_update (s : ServerController) (hr : Reachable s) (E E' : Server)
    (hsame : sameEndpoint E E') :
    SafeMap.Get (RegisterServer (RegisterServer s E) E').serversByIPPort
        (convertToIPPort E.IP E.Port) = some E' ∧
      (treeToList (RegisterServer (RegisterServer s E) E').serversByUpdatedTime).filter
        (fun x => decide (sameEndpoint x E)) = [E'] := by
  have hinv : Inv (RegisterServer (RegisterServer s E) E') :=
    (Reachable.register _ E' (Reachable.register _ E hr)).inv
  have hkey : convertToIPPort E.IP E.Port = E'.ipPort := (Server.ipPort_eq_iff E E').2 hsame
  have hget : SafeMap.Get (RegisterServer (RegisterServer s E) E').serversByIPPort E'.ipPort
      = some E' := by
    rw [RegisterServer_map]
    exact SafeMap.Get_Set_self _ _ _
  refine ⟨by rw [hkey]; exact hget, ?_⟩
  have hmem := (hinv.mapInTree _ _ hget).2
  rw [← hinv.filter_sameEndpoint E' hmem]
  apply List.filter_congr
  intro x _
  have : sameEndpoint x E ↔ sameEndpoint x E' := by
    unfold sameEndpoint at *
    rw [hsame.1, hsame.2]
  simp only [this]

/-- Instance of C2: `10.0.0.1:7777` registers at time 10 and again at time 20. -/
theorem C2_idempotent_update_witness :
    Reachable NewServerController ∧ sameEndpoint serverA10 serverA20 ∧
      SafeMap.Get
          (RegisterServer (RegisterServer NewServerController serverA10)
            serverA20).serversByIPPort
          (convertToIPPort serverA10.IP serverA10.Port) = some serverA20 ∧
        (treeToList (RegisterServer (RegisterServer NewServerController serverA10)
            serverA20).serversByUpdatedTime).filter
          (fun x => decide (sameEndpoint x serverA10)) = [serverA20] :=
  ⟨Reachable.init, by decide,
    C2_idempotent_update NewServerController Reachable.init serverA10 serverA20 (by decide)⟩

/-- C3 (sweep guarantee). For every reachable registry state and every value of
`timeNow`, after `removeExpiredServers` at `timeNow` no server with
`timeNow - UpdatedAt > 300` is left in the endpoint index, in a bucket of the
timeline index, or in the list of `treeToList`. The difference is the `int64`
difference the code computes (`sub64`); the last part restates the guarantee
with the difference of integers, which is the same number whenever it fits in
an `int64`. -/
theorem C3_sweep_guarantee (s : ServerController) (hr : Reachable s) (timeNow : Int) :
    (∀ key e, (key, e) ∈ (removeExpiredServers timeNow s).serversByIPPort →
        ¬ sub64 timeNow e.UpdatedAt > 300) ∧
      (∀ k b, (k, b) ∈ (removeExpiredServers timeNow s).serversByUpdatedTime →
        ∀ e ∈ b, ¬ sub64 timeNow e.UpdatedAt > 300) ∧
      (∀ e ∈ treeToList (removeExpiredServers timeNow s).serversByUpdatedTime,
        ¬ sub64 timeNow e.UpdatedAt > 300) ∧
      (∀ e, ((∃ key, (key, e) ∈ (removeExpiredServers timeNow s).serversByIPPort) ∨
          e ∈ treeToList (removeExpiredServers timeNow s).serversByUpdatedTime) →
        -(2 ^ 63) ≤ timeNow - e.UpdatedAt → timeNow - e.UpdatedAt < 2 ^ 63 →
        ¬ timeNow - e.UpdatedAt > 300) := by
  have hinv : Inv (removeExpiredServers timeNow s) := (Reachable.sweep _ timeNow hr).inv
  have hbucket : ∀ k b, (k, b) ∈ (removeExpiredServers timeNow s).serversByUpdatedTime →
      ∀ e ∈ b, ¬ sub64 timeNow e.UpdatedAt > 300 := by
    intro k b hkb e he hgt
    have h1 := removeExpiredServers_key_kept timeNow s k b hkb
    rw [← hinv.bucketsKeyed k b hkb e he, (isExpired_iff _ _).2 hgt] at h1
    cases h1
  have htree : ∀ e ∈ treeToList (removeExpiredServers timeNow s).serversByUpdatedTime,
      ¬ sub64 timeNow e.UpdatedAt > 300 := by
    intro e he
    obtain ⟨k, b, hkb, heb⟩ := (mem_treeToList _ _).1 he
    exact hbucket k b hkb e heb
  have hmap : ∀ key e, (key, e) ∈ (removeExpiredServers timeNow s).serversByIPPort →
      ¬ sub64 timeNow e.UpdatedAt > 300 := by
    intro key e hmem
    have hg := SafeMap.Get_of_mem _ _ _ hinv.nodupMap hmem
    exact htree e (hinv.mapInTree key e hg).2
  refine ⟨hmap, hbucket, htree, ?_⟩
  intro e he h1 h2
  have h3 : ¬ sub64 timeNow e.UpdatedAt > 300 := by
    rcases he with ⟨key, hk⟩ | he
    · exact hmap key e hk
    · exact htree e he
  unfold sub64 at h3
  rw [wrapInt64_of_inRange _ h1 h2] at h3
  exact h3

/-- Instance of C3: the registry of `serverA10`, `serverB5` and `serverC20`,
swept at time 320. -/
theorem C3_sweep_guarantee_witness :
    Reachable stateABC ∧
      ((∀ key e, (key, e) ∈ (removeExpiredServers 320 stateABC).serversByIPPort →
        ¬ sub64 320 e.UpdatedAt > 300) ∧
      (∀ k b, (k, b) ∈ (removeExpiredServers 320 stateABC).serversByUpdatedTime →
        ∀ e ∈ b, ¬ sub64 320 e.UpdatedAt > 300) ∧
      (∀ e ∈ treeToList (removeExpiredServers 320 stateABC).serversByUpdatedTime,
        ¬ sub64 320 e.UpdatedAt > 300) ∧
      (∀ e, ((∃ key, (key, e) ∈ (removeExpiredServers 320 stateABC).serversByIPPort) ∨
          e ∈ treeToList (removeExpiredServers 320 stateABC).serversByUpdatedTime) →
        -(2 ^ 63) ≤ 320 - e.UpdatedAt → 320 - e.UpdatedAt < 2 ^ 63 →
        ¬ 320 - e.UpdatedAt > 300)) :=
  ⟨reachable_stateABC, C3_sweep_guarantee stateABC reachable_stateABC 320⟩

/-- C4, counterexample. `10.0.0.1:7777` registers at time 10 and again at time
20: the state is reachable, and the key 10 of the timeline index is still
present and maps to the empty bucket. -/
theorem C4_empty_bucket_counterexample :
    Reachable (RegisterServer stateA serverA20) ∧
      SafeMap.Get stateA.serversByIPPort serverA20.ipPort = some serverA10 ∧
      SafeTreeMap.Get stateA.serversByUpdatedTime 10 = some [serverA10] ∧
      (10, []) ∈ (RegisterServer stateA serverA20).serversByUpdatedTime ∧
      SafeTreeMap.Get (RegisterServer stateA serverA20).serversByUpdatedTime 10 = some [] :=
  ⟨Reachable.register _ _ reachable_stateA, by decide, by decide, by decide, by decide⟩

/-- C4 (as amended). A key of the timeline index can map to an empty bucket:
for every reachable registry state, when an upsert of a server `E` whose
endpoint already has the entry `old`, with `E.UpdatedAt` different from
`old.UpdatedAt`, removes the only entry of the old bucket, the old bucket's key
is still present in the timeline index afterwards and maps to the empty
bucket. The bucket of the incoming server's `UpdatedAt` holds that server, so
it is not empty. -/
theorem C4_empty_bucket_kept (s : ServerController) (hr : Reachable s) (E old : Server)
    (hfound : SafeMap.Get s.serversByIPPort (convertToIPPort E.IP E.Port) = some old)
    (hne : E.UpdatedAt ≠ old.UpdatedAt)
    (honly : SafeTreeMap.Get s.serversByUpdatedTime old.UpdatedAt = some [old]) :
    SafeTreeMap.Get (RegisterServer s E).serversByUpdatedTime old.UpdatedAt = some [] ∧
      (old.UpdatedAt, []) ∈ (RegisterServer s E).serversByUpdatedTime ∧
      E ∈ bucketAt (RegisterServer s E).serversByUpdatedTime E.UpdatedAt := by
  have hinv := hr.inv
  have hidx : findServerIndex old.IP old.Port [old] = some ⟨0, Nat.succ_pos _⟩ := by
    simp [findServerIndex]
  have hrem := removeFromServersTree_of_found s.serversByUpdatedTime old [old] _ honly hidx
  have hswap : swapRemove [old] ⟨0, Nat.succ_pos _⟩ = [] := by
    simp [swapRemove]
  rw [hswap] at hrem
  have hb : ∀ k, bucketAt (RegisterServer s E).serversByUpdatedTime k =
      if k = E.UpdatedAt then
        bucketAt (removeFromServersTree s.serversByUpdatedTime old) k ++ [E]
      else bucketAt (removeFromServersTree s.serversByUpdatedTime old) k := by
    intro k
    rw [RegisterServer_of_found s E old hfound]
    exact bucketAt_appendToServersTree _ _ _
  have hget : SafeTreeMap.Get (RegisterServer s E).serversByUpdatedTime old.UpdatedAt
      = some [] := by
    rw [RegisterServer_of_found s E old hfound]
    unfold appendToServersTree
    cases hg : SafeTreeMap.Get (removeFromServersTree s.serversByUpdatedTime old)
        E.UpdatedAt with
    | none =>
      simp only
      rw [SafeTreeMap.Get_Set_other _ _ _ _ (Ne.symm hne), hrem, SafeTreeMap.Get_Set_same]
    | some b =>
      simp only
      rw [SafeTreeMap.Get_Set_other _ _ _ _ (Ne.symm hne), SafeTreeMap.Get_Del,
        if_neg (Ne.symm hne), hrem, SafeTreeMap.Get_Set_same]
  refine ⟨hget, SafeTreeMap.mem_of_Get _ _ _ hget, ?_⟩
  rw [hb E.UpdatedAt, if_pos rfl]
  exact List.mem_append_right _ (List.mem_singleton_self E)

/-- Instance of the amended C4: `serverA20` registers with the registry that
holds `serverA10` alone in the bucket of time 10. -/
theorem C4_empty_bucket_kept_witness :
    Reachable stateA ∧
      SafeMap.Get stateA.serversByIPPort
        (convertToIPPort serverA20.IP serverA20.Port) = some serverA10 ∧
      serverA20.UpdatedAt ≠ serverA10.UpdatedAt ∧
      SafeTreeMap.Get stateA.serversByUpdatedTime serverA10.UpdatedAt = some [serverA10] ∧
      (SafeTreeMap.Get (RegisterServer stateA serverA20).serversByUpdatedTime
          serverA10.UpdatedAt = some [] ∧
        (serverA10.UpdatedAt, []) ∈ (RegisterServer stateA serverA20).serversByUpdatedTime ∧
        serverA20 ∈ bucketAt (RegisterServer stateA serverA20).serversByUpdatedTime
          serverA20.UpdatedAt) :=
  ⟨reachable_stateA, by decide, by decide, by decide,
    C4_empty_bucket_kept stateA reachable_stateA serverA20 serverA10 (by decide) (by decide)
      (by decide)⟩

/-- C5 (cross-index invariant). In every reachable registry state, every server
stored in the endpoint index occurs exactly once in the timeline index as a
whole (once in the list of all buckets), and that occurrence is in the bucket
whose key is the server's own `UpdatedAt`: it occurs once in that bucket and
in no bucket of another key. -/
theorem C5_cross_index (s : ServerController) (hr : Reachable s) (key : String) (e : Server)
    (hmem : (key, e) ∈ s.serversByIPPort) :
    (treeToList s.serversByUpdatedTime).count e = 1 ∧
      (bucketAt s.serversByUpdatedTime e.UpdatedAt).count e = 1 ∧
      (∀ k b, (k, b) ∈ s.serversByUpdatedTime → e ∈ b → k = e.UpdatedAt) := by
  have hinv := hr.inv
  have hg := SafeMap.Get_of_mem _ _ _ hinv.nodupMap hmem
  have htree := (hinv.mapInTree key e hg).2
  have hone := List.count_eq_one_of_mem hinv.nodup_treeToList htree
  refine ⟨hone, ?_, ?_⟩
  · have hle := (bucketAt_sublist_treeToList s.serversByUpdatedTime e.UpdatedAt).count_le e
    have hpos : 0 < (bucketAt s.serversByUpdatedTime e.UpdatedAt).count e :=
      List.count_pos_iff.2 (hinv.mem_bucketAt e htree)
    omega
  · intro k b hkb heb
    exact (hinv.bucketsKeyed k b hkb e heb).symm

/-- Instance of C5: `serverB10` in the registry of `serverA10` and `serverB10`. -/
theorem C5_cross_index_witness :
    Reachable stateAB ∧ ("10.0.0.2:7777", serverB10) ∈ stateAB.serversByIPPort ∧
      ((treeToList stateAB.serversByUpdatedTime).count serverB10 = 1 ∧
        (bucketAt stateAB.serversByUpdatedTime serverB10.UpdatedAt).count serverB10 = 1 ∧
        (∀ k b, (k, b) ∈ stateAB.serversByUpdatedTime → serverB10 ∈ b →
          k = serverB10.UpdatedAt)) :=
  ⟨reachable_stateAB, by decide,
    C5_cross_index stateAB reachable_stateAB "10.0.0.2:7777" serverB10 (by decide)⟩

/-- C6 (endpoint uniqueness). In every reachable registry state, no two servers
at different positions of the list of `treeToList`, that is across all buckets
of the timeline index, have the same IP and port. -/
theorem C6_endpoint_unique (s : ServerController) (hr : Reachable s) :
    (treeToList s.serversByUpdatedTime).Pairwise (fun a b => ¬ sameEndpoint a b) := by
  have h := hr.inv.nodupTree
  unfold List.Nodup at h
  rw [List.pairwise_map] at h
  exact h.imp (fun {a b} hab hsame => hab ((Server.ipPort_eq_iff a b).2 hsame))

/-- Instance of C6: the registry of `serverA10` and `serverB10`. -/
theorem C6_endpoint_unique_witness :
    Reachable stateAB ∧
      (treeToList stateAB.serversByUpdatedTime).Pairwise (fun a b => ¬ sameEndpoint a b) :=
  ⟨reachable_stateAB, C6_endpoint_unique stateAB reachable_stateAB⟩

/-- C7 (ascending list order). For every reachable registry state the list of
`treeToList` is sorted by `UpdatedAt` in non-decreasing order; and registering
three distinct endpoints with `UpdatedAt` 10, 5, 20 in that order yields the
list with the server of time 5, then 10, then 20. -/
theorem C7_ascending_order (s : ServerController) (hr : Reachable s) :
    (treeToList s.serversByUpdatedTime).Pairwise (fun a b => a.UpdatedAt ≤ b.UpdatedAt) ∧
      treeToList
          (RegisterServer (RegisterServer (RegisterServer NewServerController serverA10)
            serverB5) serverC20).serversByUpdatedTime
        = [serverB5, serverA10, serverC20] :=
  ⟨treeToList_sorted _ hr.inv.sorted hr.inv.bucketsKeyed, by decide⟩

/-- Instance of C7: the registry of `serverA10`, `serverB5` and `serverC20`. -/
theorem C7_ascending_order_witness :
    Reachable stateABC ∧
      ((treeToList stateABC.serversByUpdatedTime).Pairwise
          (fun a b => a.UpdatedAt ≤ b.UpdatedAt) ∧
        treeToList
            (RegisterServer (RegisterServer (RegisterServer NewServerController serverA10)
              serverB5) serverC20).serversByUpdatedTime
          = [serverB5, serverA10, serverC20]) :=
  ⟨reachable_stateABC, C7_ascending_order stateABC reachable_stateABC⟩

/-- C8 (bucket isolation). For every reachable registry state, every upsert of
a server `E` and every stored server `B` of another endpoint (in particular
one that shares its `UpdatedAt` with the old entry of `E`): after the upsert
`B` is exactly once in the bucket keyed by its `UpdatedAt`, `findServer` still
returns `B`, and `B` is in the list of `treeToList`. More generally the upsert
changes the lookup result of no other endpoint, and in no bucket the number of
occurrences of a server of another endpoint. -/
theorem C8_bucket_isolation (s : ServerController) (hr : Reachable s) (E B : Server)
    (hB : SafeMap.Get s.serversByIPPort (convertToIPPort B.IP B.Port) = some B)
    (hne : ¬ sameEndpoint B E) :
    (findServer (RegisterServer s E) B.IP B.Port).1 = Except.ok B ∧
      (bucketAt (RegisterServer s E).serversByUpdatedTime B.UpdatedAt).count B = 1 ∧
      B ∈ treeToList (RegisterServer s E).serversByUpdatedTime ∧
      (∀ ip port, ¬ (ip = E.IP ∧ port = E.Port) →
        (findServer (RegisterServer s E) ip port).1 = (findServer s ip port).1) ∧
      (∀ k e, ¬ sameEndpoint e E →
        (bucketAt (RegisterServer s E).serversByUpdatedTime k).count e =
          (bucketAt s.serversByUpdatedTime k).count e) := by
  have hinv := hr.inv
  have hinv' : Inv (RegisterServer s E) := (Reachable.register s E hr).inv
  have hmapfr : ∀ ip port, ¬ (ip = E.IP ∧ port = E.Port) →
      SafeMap.Get (RegisterServer s E).serversByIPPort (convertToIPPort ip port) =
        SafeMap.Get s.serversByIPPort (convertToIPPort ip port) := by
    intro ip port hdiff
    rw [RegisterServer_map]
    apply SafeMap.Get_Set_of_ne
    intro hk
    exact hdiff (convertToIPPort_inj _ _ _ _ hk)
  have hfind : ∀ ip port, ¬ (ip = E.IP ∧ port = E.Port) →
      (findServer (RegisterServer s E) ip port).1 = (findServer s ip port).1 := by
    intro ip port hdiff
    simp only [findServer, hmapfr ip port hdiff]
    cases SafeMap.Get s.serversByIPPort (convertToIPPort ip port) <;> rfl
  have hcount : ∀ k e, ¬ sameEndpoint e E →
      (bucketAt (RegisterServer s E).serversByUpdatedTime k).count e =
        (bucketAt s.serversByUpdatedTime k).count e := by
    intro k e hdiff
    have heE : e ≠ E := by
      intro h
      apply hdiff
      rw [h]
      exact ⟨rfl, rfl⟩
    have happ : ∀ t : TServersByUpdatedTime,
        (bucketAt (appendToServersTree t E) k).count e = (bucketAt t k).count e := by
      intro t
      rw [bucketAt_appendToServersTree]
      split
      · rw [List.count_append, List.count_singleton]
        have : ¬ (E == e) = true := by
          intro h
          have h' : E = e := by simpa using h
          exact heE h'.symm
        simp [this]
      · rfl
    cases hg : SafeMap.Get s.serversByIPPort E.ipPort with
    | none =>
      rw [RegisterServer_of_absent s E hg]
      exact happ _
    | some old =>
      rw [RegisterServer_of_found s E old hg]
      have hold : ¬ sameEndpoint e old := by
        intro h
        apply hdiff
        have h1 : old.ipPort = E.ipPort := (hinv.mapInTree _ _ hg).1.symm
        have h2 := (Server.ipPort_eq_iff old E).1 h1
        exact ⟨h.1.trans h2.1, h.2.trans h2.2⟩
      show (bucketAt (appendToServersTree _ E) k).count e = _
      rw [happ, count_bucketAt_removeFromServersTree _ _ _ _ hold]
  have hB' : SafeMap.Get (RegisterServer s E).serversByIPPort (convertToIPPort B.IP B.Port)
      = some B := by
    rw [hmapfr B.IP B.Port hne]
    exact hB
  have hBtree := (hinv.mapInTree _ _ hB).2
  have hBcount : (bucketAt s.serversByUpdatedTime B.UpdatedAt).count B = 1 := by
    have hle := (bucketAt_sublist_treeToList s.serversByUpdatedTime B.UpdatedAt).count_le B
    have hone := List.count_eq_one_of_mem hinv.nodup_treeToList hBtree
    have hpos : 0 < (bucketAt s.serversByUpdatedTime B.UpdatedAt).count B :=
      List.count_pos_iff.2 (hinv.mem_bucketAt B hBtree)
    omega
  refine ⟨?_, ?_, (hinv'.mapInTree _ _ hB').2, hfind, hcount⟩
  · rw [findServer_of_some _ _ _ _ hB']
  · rw [hcount B.UpdatedAt B hne]
    exact hBcount

/-- Instance of C8: `serverA10` and `serverB10` share the bucket of time 10, and
`10.0.0.1:7777` registers again at time 20. -/
theorem C8_bucket_isolation_witness :
    Reachable stateAB ∧
      SafeMap.Get stateAB.serversByIPPort (convertToIPPort serverB10.IP serverB10.Port)
        = some serverB10 ∧
      ¬ sameEndpoint serverB10 serverA20 ∧
      bucketAt stateAB.serversByUpdatedTime 10 = [serverA10, serverB10] ∧
      ((findServer (RegisterServer stateAB serverA20) serverB10.IP serverB10.Port).1
          = Except.ok serverB10 ∧
        (bucketAt (RegisterServer stateAB serverA20).serversByUpdatedTime
          serverB10.UpdatedAt).count serverB10 = 1 ∧
        serverB10 ∈ treeToList (RegisterServer stateAB serverA20).serversByUpdatedTime ∧
        (∀ ip port, ¬ (ip = serverA20.IP ∧ port = serverA20.Port) →
          (findServer (RegisterServer stateAB serverA20) ip port).1 =
            (findServer stateAB ip port).1) ∧
        (∀ k e, ¬ sameEndpoint e serverA20 →
          (bucketAt (RegisterServer stateAB serverA20).serversByUpdatedTime k).count e =
            (bucketAt stateAB.serversByUpdatedTime k).count e)) :=
  ⟨reachable_stateAB, by decide, by decide, by decide,
    C8_bucket_isolation stateAB reachable_stateAB serverA20 serverB10 (by decide)
      (by decide)⟩

/-- C9 (lookup result). For every registry state, `ip` and `port`:
`findServer ip port` returns the error "server not found" exactly when the
endpoint index has no entry under the key of `(ip, port)`; otherwise it returns
exactly the server stored under that key; and in both cases the controller
(endpoint index and timeline index) is left as it was. -/
theorem C9_lookup_result (s : ServerController) (ip : String) (port : Nat) :
    ((findServer s ip port).1 = Except.error "server not found" ↔
        SafeMap.Get s.serversByIPPort (convertToIPPort ip port) = none) ∧
      (∀ e, SafeMap.Get s.serversByIPPort (convertToIPPort ip port) = some e →
        (findServer s ip port).1 = Except.ok e) ∧
      (findServer s ip port).2 = s := by
  cases hg : SafeMap.Get s.serversByIPPort (convertToIPPort ip port) with
  | none =>
    rw [findServer_of_none s ip port hg]
    exact ⟨⟨fun _ => rfl, fun _ => rfl⟩, fun e he => (by cases he), rfl⟩
  | some v =>
    rw [findServer_of_some s ip port v hg]
    refine ⟨⟨fun h => (by cases h), fun h => (by cases h)⟩, ?_, rfl⟩
    intro e he
    cases he
    rfl

/-- C10 (expiry and reuse). For every reachable registry state, every `timeNow`
and every server `E` of the registry with `timeNow - E.UpdatedAt > 300` (the
`int64` difference of the code): after a sweep at `timeNow`, `findServer` for
the endpoint of `E` returns not found and neither `E` nor any other server of
that endpoint is in the list of `treeToList`; and after a following upsert of
a server `N` with the same endpoint, `findServer` returns `N` and the list of
`treeToList` holds exactly one server of that endpoint, which is `N`. -/
theorem C10_expiry_reuse (s : ServerController) (hr : Reachable s) (timeNow : Int)
    (E : Server)
    (hE : E ∈ treeToList s.serversByUpdatedTime ∨
      SafeMap.Get s.serversByIPPort (convertToIPPort E.IP E.Port) = some E)
    (hexp : sub64 timeNow E.UpdatedAt > 300) :
    (findServer (removeExpiredServers timeNow s) E.IP E.Port).1
        = Except.error "server not found" ∧
      E ∉ treeToList (removeExpiredServers timeNow s).serversByUpdatedTime ∧
      (∀ x ∈ treeToList (removeExpiredServers timeNow s).serversByUpdatedTime,
        ¬ sameEndpoint x E) ∧
      (∀ N : Server, sameEndpoint N E →
        (findServer (RegisterServer (removeExpiredServers timeNow s) N) E.IP E.Port).1
            = Except.ok N ∧
          (treeToList
            (RegisterServer (removeExpiredServers timeNow s) N).serversByUpdatedTime).filter
              (fun x => decide (sameEndpoint x E)) = [N]) := by
  have hinv := hr.inv
  have hinv1 : Inv (removeExpiredServers timeNow s) := (Reachable.sweep s timeNow hr).inv
  have hEtree : E ∈ treeToList s.serversByUpdatedTime := by
    rcases hE with h | h
    · exact h
    · exact (hinv.mapInTree _ _ h).2
  have hEexp : E ∈ treeToList
      (s.serversByUpdatedTime.filter (fun kv => isExpired timeNow kv.1)) := by
    obtain ⟨k, b, hkb, heb⟩ := (mem_treeToList _ _).1 hEtree
    refine (mem_treeToList _ _).2 ⟨k, b, List.mem_filter.2 ⟨hkb, ?_⟩, heb⟩
    rw [← hinv.bucketsKeyed k b hkb E heb]
    exact (isExpired_iff _ _).2 hexp
  have hnone : SafeMap.Get (removeExpiredServers timeNow s).serversByIPPort
      (convertToIPPort E.IP E.Port) = none := by
    rw [removeExpiredServers_map]
    exact deleteServersFromMap_Get_of_mem _ _ _ ⟨E, hEexp, rfl⟩
  have hno : ∀ x ∈ treeToList (removeExpiredServers timeNow s).serversByUpdatedTime,
      ¬ sameEndpoint x E := by
    intro x hx hsame
    have h1 := hinv1.treeInMap x hx
    rw [(Server.ipPort_eq_iff x E).2 hsame] at h1
    rw [show E.ipPort = convertToIPPort E.IP E.Port from rfl, hnone] at h1
    cases h1
  refine ⟨by rw [findServer_of_none _ _ _ hnone], fun h => hno E h ⟨rfl, rfl⟩, hno, ?_⟩
  intro N hN
  have hinv2 : Inv (RegisterServer (removeExpiredServers timeNow s) N) :=
    (Reachable.register _ N (Reachable.sweep s timeNow hr)).inv
  have hkey : convertToIPPort E.IP E.Port = N.ipPort := ((Server.ipPort_eq_iff N E).2 hN).symm
  have hget : SafeMap.Get (RegisterServer (removeExpiredServers timeNow s) N).serversByIPPort
      N.ipPort = some N := by
    rw [RegisterServer_map]
    exact SafeMap.Get_Set_self _ _ _
  refine ⟨?_, ?_⟩
  · rw [findServer_of_some _ _ _ N (by rw [hkey]; exact hget)]
  · rw [← hinv2.filter_sameEndpoint N (hinv2.mapInTree _ _ hget).2]
    apply List.filter_congr
    intro x _
    have : sameEndpoint x E ↔ sameEndpoint x N := by
      unfold sameEndpoint at *
      rw [hN.1, hN.2]
    simp only [this]

/-- Instance of C10: the registry of `serverA10` and `serverB10` swept at time
320, after which `10.0.0.1:7777` registers at time 400. -/
theorem C10_expiry_reuse_witness :
    Reachable stateAB ∧
      (serverA10 ∈ treeToList stateAB.serversByUpdatedTime ∨
        SafeMap.Get stateAB.serversByIPPort (convertToIPPort serverA10.IP serverA10.Port)
          = some serverA10) ∧
      sub64 320 serverA10.UpdatedAt > 300 ∧
      ((findServer (removeExpiredServers 320 stateAB) serverA10.IP serverA10.Port).1
          = Except.error "server not found" ∧
        serverA10 ∉ treeToList (removeExpiredServers 320 stateAB).serversByUpdatedTime ∧
        (∀ x ∈ treeToList (removeExpiredServers 320 stateAB).serversByUpdatedTime,
          ¬ sameEndpoint x serverA10) ∧
        (∀ N : Server, sameEndpoint N serverA10 →
          (findServer (RegisterServer (removeExpiredServers 320 stateAB) N) serverA10.IP
              serverA10.Port).1 = Except.ok N ∧
            (treeToList
              (RegisterServer (removeExpiredServers 320 stateAB) N).serversByUpdatedTime).filter
                (fun x => decide (sameEndpoint x serverA10)) = [N])) :=
  ⟨reachable_stateAB, by decide, by decide,
    C10_expiry_reuse stateAB reachable_stateAB 320 serverA10 (by decide) (by decide)⟩

/-! ## Further facts for the claims -/

theorem ServerController.eq_of_fields (a b : ServerController)
    (h1 : a.serversByUpdatedTime = b.serversByUpdatedTime)
    (h2 : a.serversByIPPort = b.serversByIPPort) : a = b := by
  cases a
  cases b
  simp only at h1 h2
  rw [h1, h2]

theorem searchServerIndex_eq (ip : String) (port : Nat) (l : List Server) :
    searchServerIndex ip port l =
      (findServerIndex ip port l).map (fun i => (i.val : Int)) := by
  induction l with
  | nil => rfl
  | cons a l ih =>
    by_cases hc : a.IP = ip ∧ a.Port = port
    · simp [searchServerIndex, findServerIndex, hc]
    · simp only [searchServerIndex, findServerIndex, hc, if_false, ih, Option.map_map]
      cases findServerIndex ip port l with
      | none => rfl
      | some i => simp

theorem searchServerIndex_bounds (ip : String) (port : Nat) (l : List Server) (i : Int)
    (h : searchServerIndex ip port l = some i) : 0 ≤ i ∧ i < l.length := by
  rw [searchServerIndex_eq] at h
  obtain ⟨j, _, hj⟩ := Option.map_eq_some'.1 h
  subst hj
  exact ⟨Int.natCast_nonneg _, Int.ofNat_lt.2 j.isLt⟩

theorem swapRemoveChecked_eq (l : List Server) (i : Fin l.length) :
    swapRemoveChecked l (i.val : Int) = some (swapRemove l i) := by
  have hpos : 0 < l.length := Nat.lt_of_le_of_lt (Nat.zero_le _) i.isLt
  have hlt : l.length - 1 < l.length := by omega
  have hlast : ((l.length : Int) - 1).toNat = l.length - 1 := by omega
  have h1 : indexServers l ((l.length : Int) - 1) = some (l.get ⟨l.length - 1, hlt⟩) := by
    unfold indexServers
    rw [if_pos (by omega), hlast]
    exact List.getElem?_eq_getElem hlt
  have h2 : (0 : Int) ≤ (i.val : Int) ∧ (i.val : Int) < (l.length : Int) :=
    ⟨Int.natCast_nonneg _, Int.ofNat_lt.2 i.isLt⟩
  simp only [swapRemoveChecked, h1, h2, and_self, if_true, List.length_set, hlast,
    Int.toNat_ofNat, swapRemove]
  rw [if_pos (by omega)]

theorem removeFromServersTreeChecked_eq (t : TServersByUpdatedTime) (old : Server) :
    removeFromServersTreeChecked t old = some (removeFromServersTree t old) := by
  cases hg : SafeTreeMap.Get t old.UpdatedAt with
  | none =>
    rw [removeFromServersTree_of_absent t old hg]
    simp only [removeFromServersTreeChecked, hg]
  | some b =>
    cases hf : findServerIndex old.IP old.Port b with
    | none =>
      rw [removeFromServersTree_of_nil t old b hg hf]
      simp only [removeFromServersTreeChecked, hg, searchServerIndex_eq, hf, Option.map_none']
    | some i =>
      rw [removeFromServersTree_of_found t old b i hg hf]
      simp only [removeFromServersTreeChecked, hg, searchServerIndex_eq, hf, Option.map_some',
        swapRemoveChecked_eq]

theorem RegisterServerChecked_eq (s : ServerController) (e : Server) :
    RegisterServerChecked s e = some (RegisterServer s e) := by
  cases hg : SafeMap.Get s.serversByIPPort (convertToIPPort e.IP e.Port) with
  | none => simp only [RegisterServerChecked, RegisterServer, hg]
  | some old =>
    simp only [RegisterServerChecked, RegisterServer, hg, updateInServersTreeChecked,
      removeFromServersTreeChecked_eq, updateInServersTree]

/-! ## The claims, continued -/

/-- C11 (concrete scenario). From the empty registry, `10.0.0.1:7777` registers
with `UpdatedAt` 1000 and no players, then with `UpdatedAt` 1010 and the player
alice. Then `findServer "10.0.0.1" 7777` returns the entry of time 1010 with
the player alice, and the list of `treeToList` holds exactly one entry of this
endpoint. After a sweep at time 1320 the list holds no entry of this endpoint
and `findServer "10.0.0.1" 7777` returns the error "server not found". -/
theorem C11_concrete_scenario :
    (findServer (RegisterServer (RegisterServer NewServerController server1000) server1010)
        "10.0.0.1" 7777).1
      = Except.ok
          { IP := "10.0.0.1", Port := 7777, Players := ["alice"], UpdatedAt := 1010 } ∧
    (treeToList (RegisterServer (RegisterServer NewServerController server1000)
        server1010).serversByUpdatedTime).filter
        (fun x => decide (x.IP = "10.0.0.1" ∧ x.Port = 7777)) = [server1010] ∧
    (treeToList (removeExpiredServers 1320
        (RegisterServer (RegisterServer NewServerController server1000)
          server1010)).serversByUpdatedTime).filter
        (fun x => decide (x.IP = "10.0.0.1" ∧ x.Port = 7777)) = [] ∧
    (findServer (removeExpiredServers 1320
        (RegisterServer (RegisterServer NewServerController server1000) server1010))
        "10.0.0.1" 7777).1
      = Except.error "server not found" :=
  ⟨rfl, by decide, by decide, rfl⟩

/-- C12 (upsert is total). For every registry state, reachable or not, and
every server, the upsert with the run-time checks of Go completes: it returns
the state that `RegisterServer` computes, on the new-endpoint path and on the
update path. In particular, whenever the search loop of `updateInServersTree`
finds the old entry at `serverIndex` in a bucket, `serverIndex` and
`lastIndex = len(bucket) - 1` are both positions of the bucket, and the
swap-and-truncate succeeds. -/
theorem C12_upsert_total :
    (∀ (s : ServerController) (e : Server),
      RegisterServerChecked s e = some (RegisterServer s e)) ∧
    (∀ (self : ServerController) (existingServer updatedServer : Server),
      updateInServersTreeChecked self existingServer updatedServer =
        some (updateInServersTree self existingServer updatedServer)) ∧
    (∀ (ip : String) (port : Nat) (bucket : List Server) (serverIndex : Int),
      searchServerIndex ip port bucket = some serverIndex →
        (0 ≤ serverIndex ∧ serverIndex < bucket.length) ∧
        (0 ≤ (bucket.length : Int) - 1 ∧ (bucket.length : Int) - 1 < bucket.length) ∧
        (indexServers bucket serverIndex).isSome = true ∧
        (indexServers bucket ((bucket.length : Int) - 1)).isSome = true ∧
        (swapRemoveChecked bucket serverIndex).isSome = true) := by
  refine ⟨RegisterServerChecked_eq, ?_, ?_⟩
  · intro self existingServer updatedServer
    simp only [updateInServersTreeChecked, removeFromServersTreeChecked_eq, updateInServersTree]
  · intro ip port bucket serverIndex h
    have hb := searchServerIndex_bounds ip port bucket serverIndex h
    have hb2 : 0 ≤ (bucket.length : Int) - 1 ∧ (bucket.length : Int) - 1 < bucket.length := by
      omega
    refine ⟨hb, hb2, ?_, ?_, ?_⟩
    · unfold indexServers
      rw [if_pos hb]
      have : serverIndex.toNat < bucket.length := by omega
      simp [this]
    · unfold indexServers
      rw [if_pos hb2]
      have h1 : ((bucket.length : Int) - 1).toNat < bucket.length := by omega
      have h2 : bucket.length - 1 < bucket.length := by omega
      simp [h1, h2]
    · rw [searchServerIndex_eq] at h
      obtain ⟨j, _, hj⟩ := Option.map_eq_some'.1 h
      subst hj
      rw [swapRemoveChecked_eq]
      rfl

/-- Instance of C12: the update path for `10.0.0.1:7777` in the registry of
`serverA10` and `serverB10`, where the search finds the old entry at index 0
of a bucket of two. -/
theorem C12_upsert_total_witness :
    searchServerIndex "10.0.0.1" 7777 [serverA10, serverB10] = some 0 ∧
      ((0 ≤ (0 : Int) ∧ (0 : Int) < [serverA10, serverB10].length) ∧
        (0 ≤ ([serverA10, serverB10].length : Int) - 1 ∧
          ([serverA10, serverB10].length : Int) - 1 < [serverA10, serverB10].length) ∧
        (indexServers [serverA10, serverB10] 0).isSome = true ∧
        (indexServers [serverA10, serverB10]
          (([serverA10, serverB10].length : Int) - 1)).isSome = true ∧
        (swapRemoveChecked [serverA10, serverB10] 0).isSome = true) ∧
      RegisterServerChecked stateAB serverA20 = some (RegisterServer stateAB serverA20) :=
  ⟨by decide,
    C12_upsert_total.2.2 "10.0.0.1" 7777 [serverA10, serverB10] 0 (by decide),
    C12_upsert_total.1 stateAB serverA20⟩

theorem SafeTreeMap.Get_filter_key {V : Type} (t : SafeTreeMap V) (p : Int → Bool) (k : Int) :
    SafeTreeMap.Get (t.filter (fun kv => p kv.1)) k =
      if p k = true then SafeTreeMap.Get t k else none := by
  induction t with
  | nil => simp [SafeTreeMap.Get]
  | cons a t ih =>
    obtain ⟨k0, v0⟩ := a
    by_cases hp : p k0 = true
    · simp only [List.filter_cons, hp, if_true, SafeTreeMap.Get]
      by_cases hk : k0 = k
      · subst hk
        simp [hp]
      · simp only [hk, if_false, ih]
    · have hf : List.filter (fun kv => p kv.1) ((k0, v0) :: t) =
          List.filter (fun kv => p kv.1) t := by
        simp [List.filter_cons, hp]
      rw [hf, ih]
      by_cases hk : k0 = k
      · subst hk
        simp [hp]
      · simp [SafeTreeMap.Get, hk]

theorem treeToList_filter_key (t : TServersByUpdatedTime) (p : Int → Bool)
    (hb : BucketsKeyed t) :
    treeToList (t.filter (fun kv => p kv.1)) =
      (treeToList t).filter (fun e => p e.UpdatedAt) := by
  induction t with
  | nil => simp [treeToList]
  | cons a t ih =>
    obtain ⟨k0, b0⟩ := a
    have hb' : BucketsKeyed t := fun k b hkb => hb k b (List.mem_cons_of_mem _ hkb)
    have hb0 : ∀ e ∈ b0, e.UpdatedAt = k0 := hb k0 b0 (List.mem_cons_self _ _)
    simp only [treeToList, List.filter_append]
    by_cases hp : p k0 = true
    · simp only [List.filter_cons, hp, if_true, treeToList, ih hb']
      congr 1
      symm
      apply List.filter_eq_self.2
      intro e he
      rw [hb0 e he]
      exact hp
    · simp only [List.filter_cons, hp, treeToList, ih hb']
      have : b0.filter (fun e => p e.UpdatedAt) = [] := by
        apply List.filter_eq_nil_iff.2
        intro e he
        rw [hb0 e he]
        exact hp
      rw [this, List.nil_append]
      simpa using ih hb'

/-- C13 (the sweep keeps live entries). For every reachable registry state,
every `timeNow` and every server `E` of the registry with
`timeNow - E.UpdatedAt <= 300` (the `int64` difference of the code, the bound
300 included): after `removeExpiredServers` at `timeNow`, `findServer` still
returns `E`, `E` is still in the bucket keyed `E.UpdatedAt` (the bucket is the
one it was), and the list of `treeToList` is the list before the sweep with
the expired servers left out, the others in their order. -/
theorem C13_sweep_keeps_live (s : ServerController) (hr : Reachable s) (timeNow : Int)
    (E : Server)
    (hE : E ∈ treeToList s.serversByUpdatedTime ∨
      SafeMap.Get s.serversByIPPort (convertToIPPort E.IP E.Port) = some E)
    (hlive : sub64 timeNow E.UpdatedAt ≤ 300) :
    (findServer (removeExpiredServers timeNow s) E.IP E.Port).1 = Except.ok E ∧
      E ∈ bucketAt (removeExpiredServers timeNow s).serversByUpdatedTime E.UpdatedAt ∧
      bucketAt (removeExpiredServers timeNow s).serversByUpdatedTime E.UpdatedAt =
        bucketAt s.serversByUpdatedTime E.UpdatedAt ∧
      treeToList (removeExpiredServers timeNow s).serversByUpdatedTime =
        (treeToList s.serversByUpdatedTime).filter
          (fun e => decide (sub64 timeNow e.UpdatedAt ≤ 300)) ∧
      (treeToList (removeExpiredServers timeNow s).serversByUpdatedTime).Sublist
        (treeToList s.serversByUpdatedTime) := by
  have hinv := hr.inv
  have hinv1 : Inv (removeExpiredServers timeNow s) := (Reachable.sweep s timeNow hr).inv
  have hEtree : E ∈ treeToList s.serversByUpdatedTime := by
    rcases hE with h | h
    · exact h
    · exact (hinv.mapInTree _ _ h).2
  have hnot : isExpired timeNow E.UpdatedAt = false := by
    cases hx : isExpired timeNow E.UpdatedAt with
    | false => rfl
    | true =>
      have := (isExpired_iff _ _).1 hx
      omega
  have hlist : treeToList (removeExpiredServers timeNow s).serversByUpdatedTime =
      (treeToList s.serversByUpdatedTime).filter
        (fun e => decide (sub64 timeNow e.UpdatedAt ≤ 300)) := by
    rw [removeExpiredServers_tree,
      treeToList_filter_key s.serversByUpdatedTime (fun k => ! isExpired timeNow k)
        hinv.bucketsKeyed]
    apply List.filter_congr
    intro e _
    by_cases h : sub64 timeNow e.UpdatedAt ≤ 300
    · have h' : ¬ 300 < sub64 timeNow e.UpdatedAt := not_lt.2 h
      simp [isExpired, SERVER_EXPIRY_TIME_IN_SECONDS, h, h']
    · have h' : 300 < sub64 timeNow e.UpdatedAt := not_le.1 h
      simp [isExpired, SERVER_EXPIRY_TIME_IN_SECONDS, h, h']
  have hbucket : bucketAt (removeExpiredServers timeNow s).serversByUpdatedTime E.UpdatedAt =
      bucketAt s.serversByUpdatedTime E.UpdatedAt := by
    unfold bucketAt
    rw [removeExpiredServers_tree,
      SafeTreeMap.Get_filter_key s.serversByUpdatedTime (fun k => ! isExpired timeNow k)]
    simp [hnot]
  have hEtree1 : E ∈ treeToList (removeExpiredServers timeNow s).serversByUpdatedTime := by
    rw [hlist]
    exact List.mem_filter.2 ⟨hEtree, by simpa using hlive⟩
  refine ⟨?_, ?_, hbucket, hlist, ?_⟩
  · rw [findServer_of_some _ _ _ E (hinv1.treeInMap E hEtree1)]
  · rw [hbucket]
    exact hinv.mem_bucketAt E hEtree
  · rw [hlist]
    exact List.filter_sublist _

/-- Instance of C13 at the bound: `serverC20` in the registry of `serverA10`,
`serverB5` and `serverC20`, swept at time 320, where `320 - 20 = 300`. -/
theorem C13_sweep_keeps_live_witness :
    Reachable stateABC ∧
      (serverC20 ∈ treeToList stateABC.serversByUpdatedTime ∨
        SafeMap.Get stateABC.serversByIPPort (convertToIPPort serverC20.IP serverC20.Port)
          = some serverC20) ∧
      sub64 320 serverC20.UpdatedAt = 300 ∧
      ((findServer (removeExpiredServers 320 stateABC) serverC20.IP serverC20.Port).1
          = Except.ok serverC20 ∧
        serverC20 ∈ bucketAt (removeExpiredServers 320 stateABC).serversByUpdatedTime
          serverC20.UpdatedAt ∧
        bucketAt (removeExpiredServers 320 stateABC).serversByUpdatedTime serverC20.UpdatedAt =
          bucketAt stateABC.serversByUpdatedTime serverC20.UpdatedAt ∧
        treeToList (removeExpiredServers 320 stateABC).serversByUpdatedTime =
          (treeToList stateABC.serversByUpdatedTime).filter
            (fun e => decide (sub64 320 e.UpdatedAt ≤ 300)) ∧
        (treeToList (removeExpiredServers 320 stateABC).serversByUpdatedTime).Sublist
          (treeToList stateABC.serversByUpdatedTime)) :=
  ⟨reachable_stateABC, by decide, by decide,
    C13_sweep_keeps_live stateABC reachable_stateABC 320 serverC20 (by decide) (by decide)⟩

theorem scanExpiredEarlyStop_eq (timeNow : Int) (l : List (Int × List Server))
    (m : TServersByIPPort) (acc : List Int) :
    scanExpiredEarlyStop timeNow l m acc =
      (deleteServersFromMap m (treeToList (l.takeWhile (fun kv => isExpired timeNow kv.1))),
        acc ++ (l.takeWhile (fun kv => isExpired timeNow kv.1)).map Prod.fst) := by
  induction l generalizing m acc with
  | nil => simp [scanExpiredEarlyStop, treeToList, deleteServersFromMap]
  | cons a l ih =>
    obtain ⟨k, b⟩ := a
    by_cases hk : isExpired timeNow k = true
    · simp [scanExpiredEarlyStop, hk, ih, treeToList, deleteServersFromMap_append,
        List.takeWhile_cons]
    · simp [scanExpiredEarlyStop, hk, List.takeWhile_cons, treeToList, deleteServersFromMap]

theorem filter_expired_eq_takeWhile (timeNow : Int) (l : List (Int × List Server))
    (h : l.Pairwise (fun a b => isExpired timeNow b.1 = true → isExpired timeNow a.1 = true)) :
    l.filter (fun kv => isExpired timeNow kv.1) =
      l.takeWhile (fun kv => isExpired timeNow kv.1) := by
  induction l with
  | nil => rfl
  | cons a l ih =>
    rw [List.pairwise_cons] at h
    by_cases hp : isExpired timeNow a.1 = true
    · simp only [List.filter_cons, List.takeWhile_cons, hp, if_true, ih h.2]
    · have hnil : l.filter (fun kv => isExpired timeNow kv.1) = [] := by
        apply List.filter_eq_nil_iff.2
        intro b hb hpb
        exact hp (h.1 b hb hpb)
      simp only [List.filter_cons, List.takeWhile_cons, hp, hnil]
      rfl

theorem isExpired_of_lt (timeNow k1 k2 : Int) (hlt : k1 < k2)
    (h1 : -(2 ^ 63) ≤ timeNow - k1 ∧ timeNow - k1 < 2 ^ 63)
    (h2 : -(2 ^ 63) ≤ timeNow - k2 ∧ timeNow - k2 < 2 ^ 63)
    (hexp : isExpired timeNow k2 = true) : isExpired timeNow k1 = true := by
  rw [isExpired_iff] at hexp ⊢
  unfold sub64 at hexp ⊢
  rw [wrapInt64_of_inRange _ h1.1 h1.2]
  rw [wrapInt64_of_inRange _ h2.1 h2.2] at hexp
  omega

theorem expired_first_of_inRange (timeNow : Int) (t : TServersByUpdatedTime)
    (hs : SortedKeys t)
    (hrange : ∀ kv ∈ t, -(2 ^ 63) ≤ timeNow - kv.1 ∧ timeNow - kv.1 < 2 ^ 63) :
    t.Pairwise (fun a b => isExpired timeNow b.1 = true → isExpired timeNow a.1 = true) := by
  unfold SortedKeys at hs
  induction t with
  | nil => exact List.Pairwise.nil
  | cons a t ih =>
    rw [List.pairwise_cons] at hs ⊢
    refine ⟨?_, ih hs.2 (fun kv hkv => hrange kv (List.mem_cons_of_mem _ hkv))⟩
    intro b hb hexp
    exact isExpired_of_lt timeNow a.1 b.1 (hs.1 b hb) (hrange a (List.mem_cons_self _ _))
      (hrange b (List.mem_cons_of_mem _ hb)) hexp

/-- C14, counterexample. In the reachable registry of `serverA10` and
`serverMin` the keys of the timeline index are the least `int64` and 10. At
time 1000 the `int64` difference for the first key wraps around and is not
above 300, the one for the second key is 990: the bucket that is not expired
comes before the expired one. The sweep of the source removes `serverA10`; the
sweep that stops at the first bucket that is not expired removes nothing. -/
theorem C14_early_stop_counterexample :
    Reachable stateMin ∧
      stateMin.serversByUpdatedTime
        = [(-9223372036854775808, [serverMin]), (10, [serverA10])] ∧
      isExpired 1000 (-9223372036854775808) = false ∧
      isExpired 1000 10 = true ∧
      (removeExpiredServers 1000 stateMin).serversByUpdatedTime
        = [(-9223372036854775808, [serverMin])] ∧
      (removeExpiredServersEarlyStop 1000 stateMin).serversByUpdatedTime
        = [(-9223372036854775808, [serverMin]), (10, [serverA10])] ∧
      SafeMap.Get (removeExpiredServers 1000 stateMin).serversByIPPort "10.0.0.1:7777"
        = none ∧
      SafeMap.Get (removeExpiredServersEarlyStop 1000 stateMin).serversByIPPort "10.0.0.1:7777"
        = some serverA10 ∧
      removeExpiredServersEarlyStop 1000 stateMin ≠ removeExpiredServers 1000 stateMin :=
  ⟨Reachable.register _ _ reachable_stateA, by decide, by decide, by decide, by decide,
    by decide, by decide, by decide, by decide⟩

/-- C14 (as amended). For every registry state whose timeline index iterates in
ascending key order and every `timeNow` for which no difference
`timeNow - key` overflows the `int64` range (as for timestamps of the present
era): every bucket whose key satisfies `timeNow - key > 300` comes before every
bucket whose key does not, and the sweep that stops scanning at the first
bucket that is not expired produces exactly the endpoint index and the
timeline index of the full-scan `removeExpiredServers`. -/
theorem C14_early_stop_equiv (s : ServerController) (timeNow : Int)
    (hs : SortedKeys s.serversByUpdatedTime)
    (hrange : ∀ kv ∈ s.serversByUpdatedTime,
      -(2 ^ 63) ≤ timeNow - kv.1 ∧ timeNow - kv.1 < 2 ^ 63) :
    s.serversByUpdatedTime.Pairwise
        (fun a b => isExpired timeNow b.1 = true → isExpired timeNow a.1 = true) ∧
      s.serversByUpdatedTime.Pairwise
        (fun a b => timeNow - b.1 > 300 → timeNow - a.1 > 300) ∧
      removeExpiredServersEarlyStop timeNow s = removeExpiredServers timeNow s := by
  have hp := expired_first_of_inRange timeNow s.serversByUpdatedTime hs hrange
  have hft := filter_expired_eq_takeWhile timeNow s.serversByUpdatedTime hp
  refine ⟨hp, ?_, ?_⟩
  · unfold SortedKeys at hs
    exact hs.imp (fun {a b} hab h => by omega)
  · apply ServerController.eq_of_fields
    · simp only [removeExpiredServersEarlyStop, removeExpiredServers, scanExpiredEarlyStop_eq,
        scanExpired_eq, hft]
    · simp only [removeExpiredServersEarlyStop, removeExpiredServers, scanExpiredEarlyStop_eq,
        scanExpired_eq, hft]

/-- Instance of the amended C14: the registry of `serverA10`, `serverB5` and
`serverC20` at time 320. -/
theorem C14_early_stop_equiv_witness :
    SortedKeys stateABC.serversByUpdatedTime ∧
      (∀ kv ∈ stateABC.serversByUpdatedTime,
        -(2 ^ 63) ≤ (320 : Int) - kv.1 ∧ (320 : Int) - kv.1 < 2 ^ 63) ∧
      (stateABC.serversByUpdatedTime.Pairwise
          (fun a b => isExpired 320 b.1 = true → isExpired 320 a.1 = true) ∧
        stateABC.serversByUpdatedTime.Pairwise
          (fun a b => (320 : Int) - b.1 > 300 → (320 : Int) - a.1 > 300) ∧
        removeExpiredServersEarlyStop 320 stateABC = removeExpiredServers 320 stateABC) := by
  have htree : stateABC.serversByUpdatedTime =
      [(5, [serverB5]), (10, [serverA10]), (20, [serverC20])] := by decide
  have hrange : ∀ kv ∈ stateABC.serversByUpdatedTime,
      -(2 ^ 63) ≤ (320 : Int) - kv.1 ∧ (320 : Int) - kv.1 < 2 ^ 63 := by
    intro kv hkv
    rw [htree] at hkv
    simp only [List.mem_cons, List.mem_singleton, List.not_mem_nil, or_false] at hkv
    rcases hkv with rfl | rfl | rfl <;> norm_num
  exact ⟨reachable_stateABC.inv.sorted, hrange,
    C14_early_stop_equiv stateABC 320 reachable_stateABC.inv.sorted hrange⟩

theorem swapRemove_length (l : List Server) (i : Fin l.length) :
    (swapRemove l i).length = l.length - 1 := by
  have h := (swapRemove_perm l i).length_eq
  simp only [List.length_cons] at h
  omega

theorem swapRemove_eq_dropLast (l : List Server) (i : Fin l.length) (last : Server)
    (hlast : l.getLast? = some last) : swapRemove l i = (l.set i.val last).dropLast := by
  have hne : l ≠ [] := by
    intro h
    rw [h] at hlast
    simp at hlast
  have hl : l.get ⟨l.length - 1, Nat.sub_lt (Nat.lt_of_le_of_lt (Nat.zero_le _) i.isLt)
      Nat.one_pos⟩ = last := by
    rw [List.getLast?_eq_getLast l hne, List.getLast_eq_getElem] at hlast
    exact Option.some.inj hlast
  simp only [swapRemove, hl]
  rw [List.dropLast_eq_take, List.length_set]

/-- C15 (swap-and-truncate removal). For every bucket and every entry of it
that the search loop of `updateInServersTree` finds at index `i` by its IP and
port: the bucket written back under the old key has one element less than the
original, it is the original with position `i` overwritten by the last element
and the last position dropped, and it is a permutation of the original bucket
with exactly one occurrence of the removed entry taken out, so every other
entry is kept as often as it occurred. -/
theorem C15_swap_truncate (t : TServersByUpdatedTime) (existingServer : Server)
    (bucket : List Server) (i : Fin bucket.length)
    (hget : SafeTreeMap.Get t existingServer.UpdatedAt = some bucket)
    (hfound : findServerIndex existingServer.IP existingServer.Port bucket = some i) :
    SafeTreeMap.Get (removeFromServersTree t existingServer) existingServer.UpdatedAt
        = some (swapRemove bucket i) ∧
      ((bucket.get i).IP = existingServer.IP ∧ (bucket.get i).Port = existingServer.Port) ∧
      (swapRemove bucket i).length = bucket.length - 1 ∧
      (∀ last, bucket.getLast? = some last →
        swapRemove bucket i = (bucket.set i.val last).dropLast) ∧
      (swapRemove bucket i).Perm (bucket.erase (bucket.get i)) ∧
      (∀ e, (swapRemove bucket i).count e =
        bucket.count e - (if e = bucket.get i then 1 else 0)) := by
  have hperm := swapRemove_perm bucket i
  refine ⟨?_, findServerIndex_some _ _ bucket i hfound, swapRemove_length bucket i,
    fun last hlast => swapRemove_eq_dropLast bucket i last hlast, ?_, ?_⟩
  · rw [removeFromServersTree_of_found t existingServer bucket i hget hfound]
    exact SafeTreeMap.Get_Set_same _ _ _
  · have h1 : bucket.Perm (bucket.get i :: bucket.erase (bucket.get i)) :=
      List.perm_cons_erase (List.get_mem bucket i.val i.isLt)
    exact (List.perm_cons (bucket.get i)).1 (hperm.symm.trans h1)
  · intro e
    have hc := hperm.count_eq e
    by_cases he : e = bucket.get i
    · rw [he, List.count_cons_self] at hc
      rw [if_pos he, he]
      omega
    · rw [List.count_cons_of_ne he] at hc
      rw [if_neg he]
      omega

/-- Instance of C15: `serverA10` is found at index 0 of the bucket of
`serverA10` and `serverB10`; the bucket written back is `serverB10` alone. -/
theorem C15_swap_truncate_witness :
    SafeTreeMap.Get stateAB.serversByUpdatedTime serverA10.UpdatedAt
        = some [serverA10, serverB10] ∧
      findServerIndex serverA10.IP serverA10.Port [serverA10, serverB10]
        = some ⟨0, Nat.succ_pos _⟩ ∧
      swapRemove [serverA10, serverB10] ⟨0, Nat.succ_pos _⟩ = [serverB10] ∧
      (SafeTreeMap.Get (removeFromServersTree stateAB.serversByUpdatedTime serverA10)
          serverA10.UpdatedAt
          = some (swapRemove [serverA10, serverB10] ⟨0, Nat.succ_pos _⟩) ∧
        (([serverA10, serverB10].get ⟨0, Nat.succ_pos _⟩).IP = serverA10.IP ∧
          ([serverA10, serverB10].get ⟨0, Nat.succ_pos _⟩).Port = serverA10.Port) ∧
        (swapRemove [serverA10, serverB10] ⟨0, Nat.succ_pos _⟩).length
          = [serverA10, serverB10].length - 1 ∧
        (∀ last, [serverA10, serverB10].getLast? = some last →
          swapRemove [serverA10, serverB10] ⟨0, Nat.succ_pos _⟩
            = ([serverA10, serverB10].set 0 last).dropLast) ∧
        (swapRemove [serverA10, serverB10] ⟨0, Nat.succ_pos _⟩).Perm
          ([serverA10, serverB10].erase ([serverA10, serverB10].get ⟨0, Nat.succ_pos _⟩)) ∧
        (∀ e, (swapRemove [serverA10, serverB10] ⟨0, Nat.succ_pos _⟩).count e =
          [serverA10, serverB10].count e -
            (if e = [serverA10, serverB10].get ⟨0, Nat.succ_pos _⟩ then 1 else 0))) :=
  ⟨by decide, by decide, by decide,
    C15_swap_truncate stateAB.serversByUpdatedTime serverA10 [serverA10, serverB10]
      ⟨0, Nat.succ_pos _⟩ (by decide) (by decide)⟩

/-- C16 (status of get-single-server). For every registry state and every
request whose port parameter parses: when `findServer` succeeds,
`GetSpecificServer` responds with `http.StatusNotFound` (404) and the found
entry as body, the same status code with which it responds when `findServer`
fails. -/
theorem C16_get_specific_status (ParseUint : String → Option Nat) (timeNow : Int)
    (self : ServerController) (c : Context) (port64 : Nat)
    (hparse : ParseUint c.port = some port64) :
    (∀ foundServer,
      (findServer (removeExpiredServers timeNow self) c.ip (port64 % 2 ^ 16)).1
          = Except.ok foundServer →
        (GetSpecificServer ParseUint timeNow self c).1 =
          { status := 404, body := ResponseBody.server foundServer }) ∧
    (∀ err,
      (findServer (removeExpiredServers timeNow self) c.ip (port64 % 2 ^ 16)).1
          = Except.error err →
        (GetSpecificServer ParseUint timeNow self c).1 =
          { status := 404, body := ResponseBody.message err }) ∧
    (GetSpecificServer ParseUint timeNow self c).1.status = StatusNotFound ∧
    StatusNotFound = 404 := by
  have hport : getPortFromParams ParseUint c = Except.ok (port64 % 2 ^ 16) := by
    simp only [getPortFromParams, hparse]
  cases hg : SafeMap.Get (removeExpiredServers timeNow self).serversByIPPort
      (convertToIPPort c.ip (port64 % 2 ^ 16)) with
  | none =>
    have hf := findServer_of_none _ _ _ hg
    refine ⟨?_, ?_, ?_, rfl⟩
    · intro foundServer h
      rw [hf] at h
      cases h
    · intro err h
      rw [hf] at h
      cases h
      simp only [GetSpecificServer, hport, hf]
      rfl
    · simp only [GetSpecificServer, hport, hf]
  | some v =>
    have hf := findServer_of_some _ _ _ v hg
    refine ⟨?_, ?_, ?_, rfl⟩
    · intro foundServer h
      rw [hf] at h
      cases h
      simp only [GetSpecificServer, hport, hf]
      rfl
    · intro err h
      rw [hf] at h
      cases h
    · simp only [GetSpecificServer, hport, hf]

/-- Instance of C16: the request for `10.0.0.1` and port "7777" at time 15 on
the registry of `serverA10` and `serverB10`; the lookup succeeds and the
response has the status 404 with `serverA10` as body. -/
theorem C16_get_specific_status_witness :
    parse7777 (Context.mk "10.0.0.1" "7777").port = some 7777 ∧
      (findServer (removeExpiredServers 15 stateAB) "10.0.0.1" (7777 % 2 ^ 16)).1
        = Except.ok serverA10 ∧
      (GetSpecificServer parse7777 15 stateAB (Context.mk "10.0.0.1" "7777")).1 =
        { status := 404, body := ResponseBody.server serverA10 } :=
  ⟨by decide, rfl,
    (C16_get_specific_status parse7777 15 stateAB (Context.mk "10.0.0.1" "7777") 7777
      (by decide)).1 serverA10 rfl⟩

/-- C17 (the endpoint key is injective). For all strings `ip1`, `ip2`, also
ones that contain the character ':' such as IPv6 addresses, and all ports `p1`,
`p2` (16-bit or not): equal keys `convertToIPPort ip1 p1` and
`convertToIPPort ip2 p2` come from equal IPs and equal ports, so two different
endpoints never share a key of the endpoint index. -/
theorem C17_key_injective (ip1 ip2 : String) (p1 p2 : Nat)
    (h : convertToIPPort ip1 p1 = convertToIPPort ip2 p2) : ip1 = ip2 ∧ p1 = p2 :=
  convertToIPPort_inj ip1 ip2 p1 p2 h

/-- Instance of C17 with an IPv6 address. -/
theorem C17_key_injective_witness :
    convertToIPPort "fe80::1" 80 = convertToIPPort "fe80::1" 80 ∧
      ("fe80::1" = "fe80::1" ∧ 80 = 80) :=
  ⟨rfl, C17_key_injective "fe80::1" "fe80::1" 80 80 rfl⟩

theorem Inv.key_of_mem {s : ServerController} (hinv : Inv s) (key : String) (e : Server)
    (h : (key, e) ∈ s.serversByIPPort) :
    key = e.ipPort ∧ e ∈ treeToList s.serversByUpdatedTime :=
  hinv.mapInTree key e (SafeMap.Get_of_mem _ _ _ hinv.nodupMap h)

theorem Inv.nodup_values {s : ServerController} (hinv : Inv s) :
    (s.serversByIPPort.map Prod.snd).Nodup := by
  have hkeys : s.serversByIPPort.map Prod.fst =
      (s.serversByIPPort.map Prod.snd).map Server.ipPort := by
    rw [List.map_map]
    apply List.map_congr_left
    intro kv hkv
    exact (hinv.key_of_mem kv.1 kv.2 hkv).1
  have hnd := hinv.nodupMap
  rw [hkeys] at hnd
  exact List.Nodup.of_map _ hnd

/-- C18 (no orphan in the timeline). In every reachable registry state, every
entry found in a bucket of the timeline index is exactly the entry that the
endpoint index stores for its IP and port; so the list of `treeToList` is a
permutation of the values of the endpoint index, and its length is the number
of keys of the endpoint index (which are pairwise different). -/
theorem C18_no_orphan (s : ServerController) (hr : Reachable s) :
    (∀ k b, (k, b) ∈ s.serversByUpdatedTime → ∀ e ∈ b,
      SafeMap.Get s.serversByIPPort (convertToIPPort e.IP e.Port) = some e) ∧
    (treeToList s.serversByUpdatedTime).Perm (s.serversByIPPort.map Prod.snd) ∧
    (treeToList s.serversByUpdatedTime).length = (s.serversByIPPort.map Prod.fst).length ∧
    (s.serversByIPPort.map Prod.fst).Nodup := by
  have hinv := hr.inv
  have hperm : (treeToList s.serversByUpdatedTime).Perm (s.serversByIPPort.map Prod.snd) := by
    refine (List.perm_ext_iff_of_nodup hinv.nodup_treeToList hinv.nodup_values).2 ?_
    intro e
    constructor
    · intro he
      exact List.mem_map.2 ⟨(e.ipPort, e), SafeMap.Get_mem _ _ _ (hinv.treeInMap e he), rfl⟩
    · intro he
      obtain ⟨kv, hkv, hsnd⟩ := List.mem_map.1 he
      subst hsnd
      exact (hinv.key_of_mem kv.1 kv.2 hkv).2
  refine ⟨?_, hperm, ?_, hinv.nodupMap⟩
  · intro k b hkb e he
    exact hinv.treeInMap e ((mem_treeToList _ _).2 ⟨k, b, hkb, he⟩)
  · rw [hperm.length_eq, List.length_map, List.length_map]

/-- Instance of C18: the registry of `serverA10`, `serverB5` and `serverC20`. -/
theorem C18_no_orphan_witness :
    Reachable stateABC ∧
      ((∀ k b, (k, b) ∈ stateABC.serversByUpdatedTime → ∀ e ∈ b,
        SafeMap.Get stateABC.serversByIPPort (convertToIPPort e.IP e.Port) = some e) ∧
      (treeToList stateABC.serversByUpdatedTime).Perm
        (stateABC.serversByIPPort.map Prod.snd) ∧
      (treeToList stateABC.serversByUpdatedTime).length =
        (stateABC.serversByIPPort.map Prod.fst).length ∧
      (stateABC.serversByIPPort.map Prod.fst).Nodup) :=
  ⟨reachable_stateABC, C18_no_orphan stateABC reachable_stateABC⟩

/-- C19 (the sweep is idempotent). For every registry state and every
`timeNow`, running `removeExpiredServers` at `timeNow` twice in a row yields
the endpoint index and the timeline index of running it once. -/
theorem C19_sweep_idempotent (s : ServerController) (timeNow : Int) :
    removeExpiredServers timeNow (removeExpiredServers timeNow s) =
      removeExpiredServers timeNow s := by
  have hnil : (removeExpiredServers timeNow s).serversByUpdatedTime.filter
      (fun kv => isExpired timeNow kv.1) = [] := by
    apply List.filter_eq_nil_iff.2
    intro kv hkv
    rw [removeExpiredServers_key_kept timeNow s kv.1 kv.2 hkv]
    simp
  apply ServerController.eq_of_fields
  · rw [removeExpiredServers_tree timeNow (removeExpiredServers timeNow s),
      removeExpiredServers_tree timeNow s, List.filter_filter]
    apply List.filter_congr
    intro x _
    simp
  · rw [removeExpiredServers_map timeNow (removeExpiredServers timeNow s), hnil]
    rfl

end SppLobby
